import Mathlib

/-!
ARTI4 `arti_hardware`: a shallow embedding of `arti_hardware.cpp`

The driver's pure logic is rendered as Lean functions:

* `std::string` is `List Char` (one `Char` per byte);
* `int` is `Int`, kept inside the 32-bit range by the conversions that produce it;
* `double` is an ordered field `K` with exact arithmetic (`ℚ` for evaluation, `ℝ` for analysis);
  `sin` and `cos` of libm are parameters of the functions that call them; a statement that
  involves a quotient carries the hypothesis that keeps its divisor away from zero, and a
  statement that pins down a rounded product carries the hypothesis that the product is exact;
* the functions that only compare and combine numbers (`thresholdVelocity`, `diffCmdCallback`,
  `integrateExact`) are stated for any number type and are also run on `NanOr K`, the numbers
  of `K` together with NaN; a statement over `K` speaks of inputs that are finite numbers;
* every `ros::Time::now()` is an explicit argument;
* member variables are fields of explicit state records, passed in and returned;
* what the transport delivers in one cycle is an explicit input record.
-/

namespace ArtiHardware

/-! ## Strings and decimal numerals -/

/-- The call `str.substr(pos, len)` of `std::string`, for `pos ≤ str.length()`. -/
def substr (str : List Char) (pos len : Nat) : List Char :=
  (str.drop pos).take len

/-- The character of a decimal digit `d < 10`. -/
def digitChar (d : Nat) : Char := Char.ofNat (48 + d)

/-- Decimal digits of `n`, most significant first; `fuel` bounds the number of digits. -/
def natDigitsFuel : Nat → Nat → List Char
  | 0, _ => []
  | fuel + 1, n =>
    if n < 10 then [digitChar n]
    else natDigitsFuel fuel (n / 10) ++ [digitChar (n % 10)]

/-- Decimal digits of `n` without leading zeros (`0` prints as `0`). -/
def natDigits (n : Nat) : List Char := natDigitsFuel (n + 1) n

/-- The conversion `%d` of `sprintf`: a minus sign for negative values, then the digits. -/
def fmtInt (a : Int) : List Char :=
  if a < 0 then '-' :: natDigits a.natAbs else natDigits a.natAbs

/-- Whether `c` is one of `'0'`..`'9'`. -/
def isDigit (c : Char) : Bool := decide (48 ≤ c.toNat) && decide (c.toNat ≤ 57)

/-- Value of a string of decimal digits. -/
def digitsValue (ds : List Char) : Nat :=
  ds.foldl (fun acc c => acc * 10 + (c.toNat - 48)) 0

/-- Modelled from the spec: `boost::lexical_cast<int, std::string>`, which the source calls and
does not define ("Tick fields are parsed as signed integers; a non-numeric field also yields
malformed"). An optional sign `+` or `-`, then one or more decimal digits and nothing else; the
value has to fit in a 32-bit `int`. `none` stands for the exception `bad_lexical_cast`. -/
def lexical_cast_int (s : List Char) : Option Int :=
  match s with
  | [] => none
  | c :: rest =>
    let has_minus : Bool := c == '-'
    let ds := if has_minus || c == '+' then rest else c :: rest
    if ds.isEmpty || !ds.all isDigit then none
    else if has_minus then
      (if digitsValue ds ≤ 2 ^ 31 then some (-(digitsValue ds : Int)) else none)
    else
      (if digitsValue ds ≤ 2 ^ 31 - 1 then some (digitsValue ds : Int) else none)

/-! ## FrameCodec: `parseOdomStr` -/

/-- The loop of `parseOdomStr` that collects into `ids` every index `i` with `str[i] == ','`;
`i` is the index of the head of the remaining string. -/
def commaIdsFrom (i : Nat) : List Char → List Nat
  | [] => []
  | c :: cs => if c = ',' then i :: commaIdsFrom (i + 1) cs else commaIdsFrom (i + 1) cs

/-- The vector `ids` of `parseOdomStr` after its loop. -/
def commaIds (str : List Char) : List Nat := commaIdsFrom 0 str

/-- What a call `parseOdomStr(str, left, right)` leaves behind: the returned `bool` and the
values of the two reference parameters after the call. -/
structure ParseResult where
  ok : Bool
  left : Int
  right : Int
  deriving DecidableEq, Repr

/-- `ArtiHardware::parseOdomStr(str, left, right)`; `left` and `right` are the values the two
reference parameters hold before the call. -/
def parseOdomStr (str : List Char) (left right : Int) : ParseResult :=
  match commaIds str with
  | id0 :: id1 :: _ =>
    let left_str := substr str 0 id0
    let right_str := substr str (id0 + 1) (id1 - id0 - 1)
    match lexical_cast_int left_str with
    | none => ⟨false, left, right⟩
    | some l =>
      match lexical_cast_int right_str with
      | none => ⟨false, l, right⟩
      | some r => ⟨true, l, r⟩
  | _ => ⟨false, left, right⟩

/-! ## MotionIntegrator: kinematics and pose integration -/

section Model

variable {K : Type} [LinearOrderedField K]

/-- The parameters read by the constructor that the modelled functions use. -/
structure Config (K : Type) where
  body_width : K
  odom_window : Int
  cmd_time_out : K
  wheel_multiplier : K
  maximum_vel : K
  odom_bias : K
  flip_lr : Bool

/-- The default values the constructor gives to the parameters. -/
def defaultConfig : Config K :=
  { body_width := 1
    odom_window := 5
    cmd_time_out := 1 / 2
    wheel_multiplier := 1 / 2
    maximum_vel := 1
    odom_bias := 1
    flip_lr := false }

/-- `ArtiHardware::diffToLR(vx, wz, vl, vr)`: the pair `(vl, vr)` it writes. -/
def diffToLR (body_width vx wz : K) : K × K :=
  (vx - body_width / 2 * wz, vx + body_width / 2 * wz)

/-- `ArtiHardware::LRtoDiff(vl, vr, vx, wz)`: the pair `(vx, wz)` it writes. -/
def LRtoDiff (body_width vl vr : K) : K × K :=
  ((vr + vl) * (1 / 2), (vr - vl) / body_width)

/-- The members `px_`, `py_`, `theta_`. -/
structure Pose (K : Type) where
  px : K
  py : K
  theta : K
  deriving DecidableEq

end Model

/-! ### Functions that only compare, negate and combine numbers

These are stated for any number type with the operations they use, so that they can be run both
on an ordered field and on numbers that may be NaN (`NanOr`, below). -/

/-- `fabs` of libm: the sign is dropped. -/
def fabs {K : Type} [LT K] [DecidableRel (fun a b : K => a < b)] [Neg K] [OfNat K 0]
    (x : K) : K :=
  if x < 0 then -x else x

/-- The value of the `double` literal `1e-6` of `integrateExact`: the double nearest to 10^-6,
which is 4722366482869645 / 2^72 (2^72 = 4722366482869645213696), a little below 10^-6. -/
def angularThreshold {K : Type} [Div K] [OfNat K 4722366482869645]
    [OfNat K 4722366482869645213696] : K :=
  4722366482869645 / 4722366482869645213696

/-- `ArtiHardware::integrateRungeKutta2(linear, angular)`. -/
def integrateRungeKutta2 {K : Type} [Add K] [Mul K] [Div K] [OfNat K 1] [OfNat K 2]
    (sin cos : K → K) (linear angular : K) (p : Pose K) : Pose K :=
  let direction := p.theta + angular * (1 / 2)
  { px := p.px + linear * cos direction
    py := p.py + linear * sin direction
    theta := p.theta + angular }

/-- `ArtiHardware::integrateExact(linear, angular)`. -/
def integrateExact {K : Type} [Add K] [Sub K] [Mul K] [Div K] [Neg K] [LT K]
    [DecidableRel (fun a b : K => a < b)] [OfNat K 0] [OfNat K 1] [OfNat K 2]
    [OfNat K 4722366482869645] [OfNat K 4722366482869645213696]
    (sin cos : K → K) (linear angular : K) (p : Pose K) : Pose K :=
  if fabs angular < angularThreshold then integrateRungeKutta2 sin cos linear angular p
  else
    let theta_old := p.theta
    let r := linear / angular
    let theta := p.theta + angular
    { px := p.px + r * (sin theta - sin theta_old)
      py := p.py + -r * (cos theta - cos theta_old)
      theta := theta }

/-- The `else` branch of `integrateExact`, the only place where `linear / angular` is
computed. -/
def integrateArc {K : Type} [Add K] [Sub K] [Mul K] [Div K] [Neg K]
    (sin cos : K → K) (linear angular : K) (p : Pose K) : Pose K :=
  let theta_old := p.theta
  let r := linear / angular
  let theta := p.theta + angular
  { px := p.px + r * (sin theta - sin theta_old)
    py := p.py + -r * (cos theta - cos theta_old)
    theta := theta }

/-! ## CommandGovernor -/

/-- The members `cmd_left_`, `cmd_right_`, `cmd_time_`. -/
structure Command (K : Type) where
  cmd_left : K
  cmd_right : K
  cmd_time : K
  deriving DecidableEq

/-- `ArtiHardware::thresholdVelocity()`: four `if` statements in sequence. -/
def thresholdVelocity {K : Type} [LT K] [DecidableRel (fun a b : K => a < b)] [Neg K]
    (cfg : Config K) (s : Command K) : Command K :=
  let s1 := if s.cmd_left > cfg.maximum_vel then { s with cmd_left := cfg.maximum_vel } else s
  let s2 := if s1.cmd_left < -cfg.maximum_vel then { s1 with cmd_left := -cfg.maximum_vel } else s1
  let s3 := if s2.cmd_right > cfg.maximum_vel then { s2 with cmd_right := cfg.maximum_vel } else s2
  if s3.cmd_right < -cfg.maximum_vel then { s3 with cmd_right := -cfg.maximum_vel } else s3

/-- `ArtiHardware::diffCmdCallback(msg)` with `msg->left = left`, `msg->right = right`;
`now` is the value of `ros::Time::now()`. -/
def diffCmdCallback {K : Type} [LT K] [DecidableRel (fun a b : K => a < b)] [Neg K]
    (cfg : Config K) (left right now : K) (s : Command K) : Command K :=
  let s1 := thresholdVelocity cfg { s with cmd_left := left, cmd_right := right }
  { s1 with cmd_time := now }

section Model

variable {K : Type} [LinearOrderedField K]

/-- `ArtiHardware::cmdVelCallback(msg)` with `msg->linear.x = vx`, `msg->angular.z = wz`;
`now` is the value of `ros::Time::now()`. -/
def cmdVelCallback (cfg : Config K) (vx wz now : K) (s : Command K) : Command K :=
  let lr := diffToLR cfg.body_width vx wz
  let s1 := thresholdVelocity cfg { s with cmd_left := lr.1, cmd_right := lr.2 }
  { s1 with cmd_time := now }

/-- The conversion `(int) x` of a `double`: the fraction is discarded (truncation toward zero).
The conversion is undefined when the truncated value does not fit in a 32-bit `int`: `none`. -/
def doubleToInt [FloorRing K] (x : K) : Option Int :=
  let t : Int := if 0 ≤ x then ⌊x⌋ else ⌈x⌉
  if -2 ^ 31 ≤ t ∧ t ≤ 2 ^ 31 - 1 then some t else none

/-- The `sprintf` of `sendMotorCmd`: the content of `cmd_` for the arguments `left`, `right`.
The products are exact here; the source rounds each to a `double` before the conversion, which
is the same value whenever the exact product is a `double` (`isDouble`). -/
def motorFrame [FloorRing K] (left right : K) : Option (List Char) :=
  match doubleToInt (left * 127), doubleToInt (right * 127) with
  | some l, some r =>
    some ("\nMOTOS,".toList ++ fmtInt l ++ ",".toList ++ fmtInt r ++ ",MOTOE\n".toList)
  | _, _ => none

/-- What a call of `sendMotorCmd` does. -/
inductive SendOutcome where
  /-- The port is not open: an error is logged and nothing is built or written. -/
  | notOpen
  /-- An `(int)` conversion is out of range. -/
  | undefined
  /-- The frame is built and handed to `serial_->write`. -/
  | wrote (frame : List Char)
  deriving DecidableEq

/-- `ArtiHardware::sendMotorCmd(left, right)`; `isOpen` is the answer of `serial_->isOpen()`. -/
def sendMotorCmd [FloorRing K] (isOpen : Bool) (left right : K) : SendOutcome :=
  if !isOpen then SendOutcome.notOpen
  else
    match motorFrame left right with
    | some frame => SendOutcome.wrote frame
    | none => SendOutcome.undefined

/-- The timeout check of one iteration of `controlLoop`, after `ros::spinOnce()`: `now` is the
`ros::Time::now()` of the comparison, `now2` the one stored into `cmd_time_`. -/
def controlLoopTimeout (cfg : Config K) (now now2 : K) (s : Command K) : Command K :=
  let inter_time := now - s.cmd_time
  if inter_time > cfg.cmd_time_out then { cmd_left := 0, cmd_right := 0, cmd_time := now2 }
  else s

/-- One iteration of the `while` loop of `controlLoop`, after `ros::spinOnce()`: the timeout
check, then `sendMotorCmd(cmd_left_, cmd_right_)`. Returns the members after the iteration,
the two arguments handed to `sendMotorCmd`, and what `sendMotorCmd` did. -/
def controlLoopStep [FloorRing K] (cfg : Config K) (isOpen : Bool) (now now2 : K)
    (s : Command K) : Command K × (K × K) × SendOutcome :=
  let s1 := controlLoopTimeout cfg now now2 s
  (s1, (s1.cmd_left, s1.cmd_right), sendMotorCmd isOpen s1.cmd_left s1.cmd_right)

/-! ## OdometryEstimator -/

/-- Modelled from the spec: the message type `arti_msgs::DiffOdom`, declared outside the source
file: a time stamp and "`{left_travel, right_travel, left_speed, right_speed}`". -/
structure DiffOdom (K : Type) where
  stamp : K
  left_travel : K
  right_travel : K
  left_speed : K
  right_speed : K
  deriving DecidableEq

/-- The members the odometry thread works on: `diff_odom_queue_` (front of the queue = head of
the list), `diff_odom_old_`, `vl_`, `vr_`, `vx_`, `wz_` and the pose. -/
structure Estimator (K : Type) where
  queue : List (DiffOdom K)
  old : DiffOdom K
  vl : K
  vr : K
  vx : K
  wz : K
  pose : Pose K
  deriving DecidableEq

/-- The value assigned to `diff_odom.left_travel` by `processOdom`. -/
def leftTravel (cfg : Config K) (left : Int) : K :=
  (left : K) * cfg.wheel_multiplier * cfg.odom_bias

/-- The value assigned to `diff_odom.right_travel` by `processOdom`. -/
def rightTravel (cfg : Config K) (right : Int) : K :=
  (right : K) * cfg.wheel_multiplier

/-- Lines 200 to 220 of `processOdom`, reached by both paths: store the speeds, retain and push
the sample, then the two `LRtoDiff` calls and `integrateExact`. The two published messages are
copies of `diff_odom` and of `px_, py_, theta_, vx_, wz_`. -/
def processOdomTail (cfg : Config K) (sin cos : K → K) (diff_odom : DiffOdom K) (dl dr : K)
    (queue : List (DiffOdom K)) (s : Estimator K) : Estimator K :=
  let d := LRtoDiff cfg.body_width dl dr
  let v := LRtoDiff cfg.body_width diff_odom.left_speed diff_odom.right_speed
  { queue := queue ++ [diff_odom]
    old := diff_odom
    vl := diff_odom.left_speed
    vr := diff_odom.right_speed
    vx := v.1
    wz := v.2
    pose := integrateExact sin cos d.1 d.2 s.pose }

/-- `ArtiHardware::processOdom(left, right)`. `now` is the `ros::Time::now()` stored in the
sample's stamp. `dl0`, `dr0` are the indeterminate values the locals `dl`, `dr` hold when they are
read without having been assigned. A default-constructed message has all numeric fields zero
(Modelled from the spec: "speeds undefined/zero for the first `W` samples"). `none` is
`front()` on an empty queue. The comparison `size() == odom_window_` is made on integers: a
negative `odom_window_` equals no size. -/
def processOdom (cfg : Config K) (sin cos : K → K) (now dl0 dr0 : K) (left right : Int)
    (s : Estimator K) : Option (Estimator K) :=
  let left_travel := leftTravel cfg left
  let right_travel := rightTravel cfg right
  if (s.queue.length : Int) = cfg.odom_window then
    match s.queue with
    | [] => none
    | front :: rest =>
      let dt := now - front.stamp
      if dt < 1 / 100000 then some s
      else
        let dl := left_travel - s.old.left_travel
        let dr := right_travel - s.old.right_travel
        let diff_odom : DiffOdom K :=
          { stamp := now
            left_travel := left_travel
            right_travel := right_travel
            left_speed := (left_travel - front.left_travel) / dt
            right_speed := (right_travel - front.right_travel) / dt }
        some (processOdomTail cfg sin cos diff_odom dl dr rest s)
  else
    let diff_odom : DiffOdom K :=
      { stamp := now
        left_travel := left_travel
        right_travel := right_travel
        left_speed := 0
        right_speed := 0 }
    some (processOdomTail cfg sin cos diff_odom dl0 dr0 s.queue s)

/-- The arguments of one call `processOdom(left, right)`, with the clock value the call reads
and the indeterminate initial values of its locals `dl`, `dr`. -/
structure OdomCall (K : Type) where
  left : Int
  right : Int
  now : K
  dl0 : K
  dr0 : K

/-- The first `k` calls `calls 0`, ..., `calls (k - 1)` of `processOdom`, in order, from the
members `s`. -/
def processOdomRun (cfg : Config K) (sin cos : K → K) (calls : Nat → OdomCall K) :
    Nat → Estimator K → Option (Estimator K)
  | 0, s => some s
  | k + 1, s =>
    (processOdomRun cfg sin cos calls k s).bind fun s1 =>
      processOdom cfg sin cos (calls k).now (calls k).dl0 (calls k).dr0 (calls k).left
        (calls k).right s1

/-- Stamp and travels of a queued sample. -/
def sampleCore (d : DiffOdom K) : K × K × K := (d.stamp, d.left_travel, d.right_travel)

/-- Stamp and travels of the sample that a call produces. -/
def callCore (cfg : Config K) (c : OdomCall K) : K × K × K :=
  (c.now, leftTravel cfg c.left, rightTravel cfg c.right)

/-! ## Scheduler: one cycle of the odometry loop -/

/-- What the transport delivers in one cycle of `odomLoop`: whether `serial_->available()` is
nonzero, and the results of `readline(20, "ODOMS,")` and `readline(20, "ODOME\n")`, `none` when
the call throws (`SerialException` or `runtime_error`, both caught and logged). -/
structure SerialInput where
  available : Bool
  tmpStr : Option (List Char)
  dataStr : Option (List Char)

/-- The locals `left`, `right` of `odomLoop` and the estimator members. -/
structure OdomLoop (K : Type) where
  left : Int
  right : Int
  est : Estimator K

/-- The reading part of one cycle of `odomLoop` (lines 136 to 161): the values of the locals
`(left, right)` when `processOdom(left, right)` is called. -/
def odomLoopTicks (flip_lr : Bool) (io : SerialInput) (left right : Int) : Int × Int :=
  if io.available then
    match io.tmpStr with
    | none => (left, right)
    | some tmpStr =>
      if !tmpStr.isEmpty && tmpStr.getLast? == some ',' then
        match io.dataStr with
        | none => (left, right)
        | some dataStr =>
          if flip_lr then
            let r := parseOdomStr dataStr left right
            (r.left, r.right)
          else
            let r := parseOdomStr dataStr right left
            (r.right, r.left)
      else (left, right)
  else (left, right)

/-- One cycle of the `while` loop of `odomLoop`: the read, then `processOdom(left, right)`. -/
def odomLoopStep (cfg : Config K) (sin cos : K → K) (io : SerialInput) (now dl0 dr0 : K)
    (s : OdomLoop K) : Option (OdomLoop K) :=
  let lr := odomLoopTicks cfg.flip_lr io s.left s.right
  (processOdom cfg sin cos now dl0 dr0 lr.1 lr.2 s.est).map
    fun est => { left := lr.1, right := lr.2, est := est }

/-! ## Further parts of the source: branches, repeated iterations, shutdown -/

/-- The condition of the `if` in `controlLoop`: whether the iteration at clock value `now`
takes the zeroing branch. -/
def controlLoopTimedOut (cfg : Config K) (now : K) (s : Command K) : Bool :=
  decide (now - s.cmd_time > cfg.cmd_time_out)

/-- The members after `n` iterations of `controlLoop` with no callback in between; iteration
`i` reads the clock values `(clock i).1` (comparison) and `(clock i).2` (new stamp). -/
def controlLoopRun (cfg : Config K) (clock : Nat → K × K) : Nat → Command K → Command K
  | 0, s => s
  | n + 1, s => controlLoopTimeout cfg (clock n).1 (clock n).2 (controlLoopRun cfg clock n s)

/-- The calls the destructor makes on the odometry thread and on the transport. -/
inductive ShutdownEffect where
  /-- The call `odom_thread_->interrupt()`. -/
  | interruptOdom
  /-- The call `odom_thread_->join()`. -/
  | joinOdom
  /-- The call `serial_->write(cmd_)` with the content of `cmd_`. -/
  | write (frame : List Char)
  /-- The call `serial_->close()`. -/
  | close
  /-- The statement `delete serial_`. -/
  | deleteSerial
  /-- The statement `delete odom_thread_`. -/
  | deleteThread
  deriving DecidableEq

/-- How the call `serial_->write` ends. -/
inductive WriteResult where
  /-- It returns. -/
  | done
  /-- It throws `SerialException` or `runtime_error`, caught and logged inside
  `sendMotorCmd`. -/
  | caught
  /-- It throws another `std::exception`, which leaves `sendMotorCmd` and is caught by the
  destructor: the rest of its `try` block is skipped. -/
  | escaped
  deriving DecidableEq

/-- `ArtiHardware::~ArtiHardware()`: the sequence of calls it makes. `isOpen` is the answer of
`serial_->isOpen()` inside `sendMotorCmd(0, 0)`, `w` is how the write ends if it is made. -/
def destructor (isOpen : Bool) (w : WriteResult) : List ShutdownEffect :=
  [ShutdownEffect.interruptOdom, ShutdownEffect.joinOdom] ++
    (match sendMotorCmd isOpen (0 : ℚ) 0 with
      | SendOutcome.wrote frame =>
        if w = WriteResult.escaped then [ShutdownEffect.write frame]
        else [ShutdownEffect.write frame, ShutdownEffect.close]
      | SendOutcome.notOpen => [ShutdownEffect.close]
      | SendOutcome.undefined => []) ++
    [ShutdownEffect.deleteSerial, ShutdownEffect.deleteThread]

end Model

/-! ## Numbers that may be NaN -/

/-- A `double` that is either NaN or a number of `K`. NaN follows IEEE 754: an arithmetic
result with a NaN operand is NaN, a comparison with a NaN operand is false. Infinities,
rounding and the results of a division by zero are not modelled. -/
inductive NanOr (K : Type) where
  /-- Not a number. -/
  | nan
  /-- The number `x`. -/
  | num (x : K)
  deriving DecidableEq

/-- A binary arithmetic operation on numbers that may be NaN. -/
def NanOr.lift2 {K : Type} (f : K → K → K) : NanOr K → NanOr K → NanOr K
  | NanOr.num x, NanOr.num y => NanOr.num (f x y)
  | _, _ => NanOr.nan

/-- A function of libm on numbers that may be NaN: NaN is mapped to NaN. -/
def NanOr.map {K : Type} (f : K → K) : NanOr K → NanOr K
  | NanOr.num x => NanOr.num (f x)
  | NanOr.nan => NanOr.nan

/-- The comparison `a < b` of two `double`s: false as soon as one of them is NaN. -/
def NanOr.lt {K : Type} [LT K] : NanOr K → NanOr K → Prop
  | NanOr.num x, NanOr.num y => x < y
  | _, _ => False

/-- The comparison `a <= b` of two `double`s: false as soon as one of them is NaN. -/
def NanOr.le {K : Type} [LE K] : NanOr K → NanOr K → Prop
  | NanOr.num x, NanOr.num y => x ≤ y
  | _, _ => False

instance NanOr.instAdd {K : Type} [Add K] : Add (NanOr K) := ⟨NanOr.lift2 (· + ·)⟩

instance NanOr.instSub {K : Type} [Sub K] : Sub (NanOr K) := ⟨NanOr.lift2 (· - ·)⟩

instance NanOr.instMul {K : Type} [Mul K] : Mul (NanOr K) := ⟨NanOr.lift2 (· * ·)⟩

instance NanOr.instDiv {K : Type} [Div K] : Div (NanOr K) := ⟨NanOr.lift2 (· / ·)⟩

instance NanOr.instNeg {K : Type} [Neg K] : Neg (NanOr K) := ⟨NanOr.map (fun x => -x)⟩

instance NanOr.instOfNat {K : Type} (n : Nat) [OfNat K n] : OfNat (NanOr K) n :=
  ⟨NanOr.num (OfNat.ofNat n)⟩

instance NanOr.instLT {K : Type} [LT K] : LT (NanOr K) := ⟨NanOr.lt⟩

instance NanOr.instLE {K : Type} [LE K] : LE (NanOr K) := ⟨NanOr.le⟩

instance NanOr.decLt {K : Type} [LT K] [DecidableRel (fun a b : K => a < b)] :
    DecidableRel (fun a b : NanOr K => a < b)
  | NanOr.num x, NanOr.num y => inferInstanceAs (Decidable (x < y))
  | NanOr.nan, _ => isFalse (fun h => h)
  | NanOr.num _, NanOr.nan => isFalse (fun h => h)

instance NanOr.decLe {K : Type} [LE K] [DecidableRel (fun a b : K => a ≤ b)] :
    DecidableRel (fun a b : NanOr K => a ≤ b)
  | NanOr.num x, NanOr.num y => inferInstanceAs (Decidable (x ≤ y))
  | NanOr.nan, _ => isFalse (fun h => h)
  | NanOr.num _, NanOr.nan => isFalse (fun h => h)

/-- The configuration `cfg` with its numbers read as `double`s that may be NaN. -/
def nanConfig {K : Type} (cfg : Config K) : Config (NanOr K) :=
  { body_width := NanOr.num cfg.body_width
    odom_window := cfg.odom_window
    cmd_time_out := NanOr.num cfg.cmd_time_out
    wheel_multiplier := NanOr.num cfg.wheel_multiplier
    maximum_vel := NanOr.num cfg.maximum_vel
    odom_bias := NanOr.num cfg.odom_bias
    flip_lr := cfg.flip_lr }

/-! ## Reference definitions taken from the specification's wording -/

section Reference

variable {K : Type} [LinearOrderedField K]

/-- The clamp to `[-m, m]` as the specification words it, to be compared with
`thresholdVelocity`: a value above the interval becomes `m`, a value below it becomes `-m`, a
value inside is kept. -/
def clampTo (m x : K) : K :=
  if m < x then m else if x < -m then -m else x

end Reference

/-! ## Concrete inputs used to exercise the statements -/

section Scenario

variable {K : Type} [LinearOrderedField K]

/-- The estimator members with an empty queue and every number zero. -/
def zeroEstimator : Estimator K :=
  { queue := []
    old := ⟨0, 0, 0, 0, 0⟩
    vl := 0
    vr := 0
    vx := 0
    wz := 0
    pose := ⟨0, 0, 0⟩ }

/-- Calls whose ticks grow by 4 per call on both sides, a tenth of a second apart: with the
default `wheel_multiplier_ = 1/2` the travels are 0, 2, 4, 6, 8, 10, ... at
t = 0, 0.1, 0.2, ... -/
def steadyCalls : Nat → OdomCall K :=
  fun i => { left := 4 * i, right := 4 * i, now := (i : K) / 10, dl0 := 0, dr0 := 0 }

/-- The default configuration with a window of one sample. -/
def windowOneConfig : Config K := { (defaultConfig : Config K) with odom_window := 1 }

/-- What the transport delivers when a frame `ODOMS,<payload>` arrives. -/
def frameInput (payload : String) : SerialInput :=
  { available := true, tmpStr := some "ODOMS,".toList, dataStr := some payload.toList }

/-- The loop state reached with `windowOneConfig` from `zeroEstimator` after the frame
`ODOMS,0,0,ODOME\n` at t = 0: one sample in the window, everything zero. -/
def startedLoop : OdomLoop K :=
  { left := 0
    right := 0
    est :=
      { queue := [⟨0, 0, 0, 0, 0⟩]
        old := ⟨0, 0, 0, 0, 0⟩
        vl := 0
        vr := 0
        vx := 0
        wz := 0
        pose := ⟨0, 0, 0⟩ } }

/-- The loop state reached with `windowOneConfig` from `zeroEstimator` after the frames
`ODOMS,0,0,ODOME\n` at t = 0 and `ODOMS,20,20,ODOME\n` at t = 1: ticks (20, 20), travel 10 on
both sides, speed 10, pose (10, 0, 0). -/
def movedLoop : OdomLoop K :=
  { left := 20
    right := 20
    est :=
      { queue := [⟨1, 10, 10, 10, 10⟩]
        old := ⟨1, 10, 10, 10, 10⟩
        vl := 10
        vr := 10
        vx := 10
        wz := 0
        pose := ⟨10, 0, 0⟩ } }

/-- The loop state one cycle after `movedLoop`, at t = 2, when no new ticks were decoded. -/
def stalledLoop : OdomLoop K :=
  { left := 20
    right := 20
    est :=
      { queue := [⟨2, 10, 10, 0, 0⟩]
        old := ⟨2, 10, 10, 0, 0⟩
        vl := 0
        vr := 0
        vx := 0
        wz := 0
        pose := ⟨10, 0, 0⟩ } }

/-- The default configuration with `odom_window` set to -1. -/
def negativeWindowConfig : Config K := { (defaultConfig : Config K) with odom_window := -1 }

/-- The default configuration with `maximum_vel` set to 2. -/
def fastConfig : Config K := { (defaultConfig : Config K) with maximum_vel := 2 }

/-- The default configuration with `cmd_time_out` set to -1. -/
def negativeTimeoutConfig : Config K := { (defaultConfig : Config K) with cmd_time_out := -1 }

/-- The frame that `sendMotorCmd(0, 0)` builds. -/
def zeroFrame : List Char := "\nMOTOS,0,0,MOTOE\n".toList

end Scenario

/-! ## Lemmas on decimal numerals -/

theorem digitChar_isDigit (d : Nat) (h : d < 10) : isDigit (digitChar d) = true := by
  interval_cases d <;> decide

theorem digitChar_value (d : Nat) (h : d < 10) : (digitChar d).toNat - 48 = d := by
  interval_cases d <;> decide

theorem isDigit_ne_comma (c : Char) (h : isDigit c = true) : c ≠ ',' := by
  rintro rfl
  revert h
  decide

theorem isDigit_ne_minus (c : Char) (h : isDigit c = true) : (c == '-') = false := by
  rw [beq_eq_false_iff_ne]
  rintro rfl
  revert h
  decide

theorem isDigit_ne_plus (c : Char) (h : isDigit c = true) : (c == '+') = false := by
  rw [beq_eq_false_iff_ne]
  rintro rfl
  revert h
  decide

theorem digitsValue_append (xs : List Char) (c : Char) :
    digitsValue (xs ++ [c]) = digitsValue xs * 10 + (c.toNat - 48) := by
  simp [digitsValue, List.foldl_append]

theorem natDigitsFuel_spec (fuel : Nat) : ∀ n : Nat, n < fuel →
    natDigitsFuel fuel n ≠ [] ∧ (natDigitsFuel fuel n).all isDigit = true ∧
      digitsValue (natDigitsFuel fuel n) = n := by
  induction fuel with
  | zero => intro n h; omega
  | succ fuel ih =>
    intro n hn
    unfold natDigitsFuel
    by_cases h10 : n < 10
    · simp only [h10, if_true]
      refine ⟨by simp, ?_, ?_⟩
      · simp [digitChar_isDigit n h10]
      · simp [digitsValue, digitChar_value n h10]
    · simp only [h10, if_false]
      have hlt : n / 10 < fuel := by omega
      obtain ⟨_, hall, hval⟩ := ih (n / 10) hlt
      have hmod : n % 10 < 10 := Nat.mod_lt _ (by decide)
      refine ⟨by simp, ?_, ?_⟩
      · simp [List.all_append, hall, digitChar_isDigit _ hmod]
      · rw [digitsValue_append, hval, digitChar_value _ hmod]
        omega

theorem natDigits_spec (n : Nat) :
    natDigits n ≠ [] ∧ (natDigits n).all isDigit = true ∧ digitsValue (natDigits n) = n :=
  natDigitsFuel_spec (n + 1) n (Nat.lt_succ_self n)

theorem lexical_cast_int_digits (ds : List Char) (hne : ds ≠ []) (hall : ds.all isDigit = true)
    (hle : digitsValue ds ≤ 2 ^ 31 - 1) : lexical_cast_int ds = some (digitsValue ds : Int) := by
  cases ds with
  | nil => exact absurd rfl hne
  | cons c rest =>
    have hc : isDigit c = true := by
      simp only [List.all_cons, Bool.and_eq_true] at hall
      exact hall.1
    simp only [lexical_cast_int, isDigit_ne_minus c hc, isDigit_ne_plus c hc, Bool.or_self,
      Bool.false_eq_true, if_false, hall, List.isEmpty_cons, Bool.not_true, hle, if_true]

theorem lexical_cast_int_minus (ds : List Char) (hne : ds ≠ []) (hall : ds.all isDigit = true)
    (hle : digitsValue ds ≤ 2 ^ 31) :
    lexical_cast_int ('-' :: ds) = some (-(digitsValue ds : Int)) := by
  have hemp : ds.isEmpty = false := by
    cases ds with
    | nil => exact absurd rfl hne
    | cons c rest => rfl
  have hle2 : digitsValue ds ≤ 2147483648 := by
    have : (2 : Nat) ^ 31 = 2147483648 := by norm_num
    omega
  simp [lexical_cast_int, hall, hemp, hle2]

theorem lexical_cast_int_fmtInt (a : Int) (hlo : -2 ^ 31 ≤ a) (hhi : a ≤ 2 ^ 31 - 1) :
    lexical_cast_int (fmtInt a) = some a := by
  obtain ⟨hne, hall, hval⟩ := natDigits_spec a.natAbs
  unfold fmtInt
  by_cases hneg : a < 0
  · simp only [hneg, if_true]
    rw [lexical_cast_int_minus _ hne hall (by rw [hval]; omega), hval]
    congr 1
    omega
  · simp only [hneg, if_false]
    rw [lexical_cast_int_digits _ hne hall (by rw [hval]; omega), hval]
    congr 1
    omega

theorem fmtInt_no_comma (a : Int) : ',' ∉ fmtInt a := by
  obtain ⟨_, hall, _⟩ := natDigits_spec a.natAbs
  have hd : ',' ∉ natDigits a.natAbs := by
    intro hmem
    rw [List.all_eq_true] at hall
    exact isDigit_ne_comma ',' (hall ',' hmem) rfl
  unfold fmtInt
  split
  · simp only [List.mem_cons, not_or]
    exact ⟨by decide, hd⟩
  · exact hd

/-! ## Lemmas on the comma scan -/

theorem commaIdsFrom_length (str : List Char) : ∀ i : Nat,
    (commaIdsFrom i str).length = str.count ',' := by
  induction str with
  | nil => intro i; rfl
  | cons c cs ih =>
    intro i
    unfold commaIdsFrom
    by_cases hc : c = ','
    · subst hc
      simp [ih]
    · simp [hc, ih, List.count_cons]

theorem commaIds_of_count_lt_two (str : List Char) (h : str.count ',' < 2) :
    commaIds str = [] ∨ ∃ i, commaIds str = [i] := by
  have hlen : (commaIds str).length < 2 := by
    unfold commaIds
    rw [commaIdsFrom_length]
    exact h
  match hids : commaIds str with
  | [] => exact Or.inl rfl
  | [i] => exact Or.inr ⟨i, rfl⟩
  | _ :: _ :: _ =>
    rw [hids] at hlen
    simp only [List.length_cons] at hlen
    omega

theorem parseOdomStr_of_ok (str : List Char) (l0 r0 f1 f2 : Int)
    (h : parseOdomStr str l0 r0 = ⟨true, f1, f2⟩) (left right : Int) :
    parseOdomStr str left right = ⟨true, f1, f2⟩ := by
  unfold parseOdomStr at h ⊢
  split at h
  · next id0 id1 tl hids =>
    simp only [hids]
    cases hl : lexical_cast_int (substr str 0 id0) with
    | none => simp [hl] at h
    | some l =>
      cases hr : lexical_cast_int (substr str (id0 + 1) (id1 - id0 - 1)) with
      | none => simp [hl, hr] at h
      | some r =>
        simp only [hl, hr, ParseResult.mk.injEq, true_and] at h ⊢
        exact h
  · simp at h

theorem commaIdsFrom_append_comma (p rest : List Char) (hp : ',' ∉ p) : ∀ i : Nat,
    commaIdsFrom i (p ++ ',' :: rest) =
      (i + p.length) :: commaIdsFrom (i + p.length + 1) rest := by
  induction p with
  | nil => intro i; simp [commaIdsFrom]
  | cons c cs ih =>
    intro i
    simp only [List.mem_cons, not_or] at hp
    have hc : c ≠ ',' := fun h => hp.1 h.symm
    have e1 : i + 1 + cs.length = i + (cs.length + 1) := by omega
    have step : commaIdsFrom i (c :: (cs ++ ',' :: rest)) =
        commaIdsFrom (i + 1) (cs ++ ',' :: rest) := by
      simp [commaIdsFrom, hc]
    rw [List.cons_append, step, ih hp.2 (i + 1), List.length_cons, e1]

theorem substr_first_field (p rest : List Char) : substr (p ++ rest) 0 p.length = p := by
  simp [substr]

theorem substr_second_field (p q rest : List Char) :
    substr (p ++ ',' :: (q ++ rest)) (p.length + 1) q.length = q := by
  have h : p ++ ',' :: (q ++ rest) = (p ++ [',']) ++ (q ++ rest) := by simp
  have hl : p.length + 1 = (p ++ [',']).length := by simp
  unfold substr
  rw [h, hl, List.drop_left]
  simp

/-! ## FrameCodec: decoding -/

/-- C1, as stated, fails: the payload of the frame `ODOMS,1,2ODOME\n`, which is `1,2ODOME\n`,
holds a single comma, so `parseOdomStr` returns `false` and leaves both outputs (here 7 and 8)
as they were instead of yielding the pair (1, 2). -/
theorem parseOdomStr_frame_without_trailing_comma :
    fmtInt 1 ++ ",".toList ++ fmtInt 2 ++ "ODOME\n".toList = "1,2ODOME\n".toList ∧
      parseOdomStr (fmtInt 1 ++ ",".toList ++ fmtInt 2 ++ "ODOME\n".toList) 7 8 =
        ⟨false, 7, 8⟩ := by
  decide

/-- C1, amended: for all integers `a`, `b` in the 32-bit `int` range, `parseOdomStr` applied to
the payload `<a>,<b>,ODOME\n` (a comma closes the second field, as in the frame
`ODOMS,<a>,<b>,ODOME\n`) returns `true` with the first output set to `a` and the second to `b`,
whatever the outputs held before. -/
theorem parseOdomStr_decodes_frame (a b left right : Int)
    (ha : -2 ^ 31 ≤ a ∧ a ≤ 2 ^ 31 - 1) (hb : -2 ^ 31 ≤ b ∧ b ≤ 2 ^ 31 - 1) :
    parseOdomStr (fmtInt a ++ ",".toList ++ fmtInt b ++ ",ODOME\n".toList) left right =
      ⟨true, a, b⟩ := by
  have hstr : fmtInt a ++ ",".toList ++ fmtInt b ++ ",ODOME\n".toList =
      fmtInt a ++ ',' :: (fmtInt b ++ ',' :: "ODOME\n".toList) := by
    simp
  have hids : ∃ tl, commaIds (fmtInt a ++ ',' :: (fmtInt b ++ ',' :: "ODOME\n".toList)) =
      (fmtInt a).length :: ((fmtInt a).length + 1 + (fmtInt b).length) :: tl := by
    unfold commaIds
    rw [commaIdsFrom_append_comma _ _ (fmtInt_no_comma a) 0,
      commaIdsFrom_append_comma _ _ (fmtInt_no_comma b)]
    rw [Nat.zero_add]
    exact ⟨_, rfl⟩
  obtain ⟨tl, hids⟩ := hids
  have hsub : (fmtInt a).length + 1 + (fmtInt b).length - (fmtInt a).length - 1 =
      (fmtInt b).length := by omega
  rw [hstr]
  unfold parseOdomStr
  rw [hids]
  simp only [hsub]
  rw [substr_first_field, substr_second_field, lexical_cast_int_fmtInt a ha.1 ha.2,
    lexical_cast_int_fmtInt b hb.1 hb.2]

/-- Witness of C1, amended: the payload `-12,345,ODOME\n` decodes to (-12, 345). -/
theorem parseOdomStr_decodes_frame_witness :
    fmtInt (-12) ++ ",".toList ++ fmtInt 345 ++ ",ODOME\n".toList = "-12,345,ODOME\n".toList ∧
      parseOdomStr (fmtInt (-12) ++ ",".toList ++ fmtInt 345 ++ ",ODOME\n".toList) 7 8 =
        ⟨true, -12, 345⟩ :=
  ⟨by decide, parseOdomStr_decodes_frame (-12) 345 7 8 (by decide) (by decide)⟩

/-- C2: a payload with fewer than two commas makes `parseOdomStr` return `false` and leaves both
outputs as they were before the call. -/
theorem parseOdomStr_fewer_than_two_commas (str : List Char) (left right : Int)
    (h : str.count ',' < 2) : parseOdomStr str left right = ⟨false, left, right⟩ := by
  unfold parseOdomStr
  rcases commaIds_of_count_lt_two str h with h0 | ⟨i, h1⟩
  · rw [h0]
  · rw [h1]

/-- Witness of C2: the payload `12ODOME\n` has no comma and is rejected, outputs untouched. -/
theorem parseOdomStr_fewer_than_two_commas_witness :
    "12ODOME\n".toList.count ',' < 2 ∧
      parseOdomStr "12ODOME\n".toList 7 8 = ⟨false, 7, 8⟩ :=
  ⟨by decide, parseOdomStr_fewer_than_two_commas "12ODOME\n".toList 7 8 (by decide)⟩

/-- C3, the code at the failing input: on the payload `12,abc,ODOME\n` (two commas, first
field numeric, second field not) with outputs holding 7 and 8, `parseOdomStr` returns `false`
and the first output holds 12: the first assignment is made before the second conversion
throws. -/
theorem parseOdomStr_partial_result :
    parseOdomStr "12,abc,ODOME\n".toList 7 8 = ⟨false, 12, 8⟩ := by
  decide

/-! ## FrameCodec: encoding -/

section Governor

variable {K : Type} [LinearOrderedField K]

theorem doubleToInt_truncates [FloorRing K] (x : K) (hx : |x| < 2 ^ 31) :
    ∃ t : Int, doubleToInt x = some t ∧
      |(t : K)| ≤ |x| ∧ |x| < |(t : K)| + 1 ∧ 0 ≤ (t : K) * x := by
  by_cases h0 : 0 ≤ x
  · have hfl : (0 : Int) ≤ ⌊x⌋ := Int.floor_nonneg.mpr h0
    have hflK : (0 : K) ≤ (⌊x⌋ : K) := by exact_mod_cast hfl
    have hle : (⌊x⌋ : K) ≤ x := Int.floor_le x
    have hlt : x < (⌊x⌋ : K) + 1 := Int.lt_floor_add_one x
    have hxa : |x| = x := abs_of_nonneg h0
    have hub : (⌊x⌋ : K) < 2 ^ 31 := lt_of_le_of_lt hle (hxa ▸ hx)
    have hubZ : ⌊x⌋ < 2 ^ 31 := by exact_mod_cast hub
    refine ⟨⌊x⌋, ?_, ?_, ?_, ?_⟩
    · have hr : -2 ^ 31 ≤ ⌊x⌋ ∧ ⌊x⌋ ≤ 2 ^ 31 - 1 := by constructor <;> omega
      simp only [doubleToInt, h0, if_true, hr, and_self]
    · rw [hxa, abs_of_nonneg hflK]; exact hle
    · rw [hxa, abs_of_nonneg hflK]; exact hlt
    · exact mul_nonneg hflK h0
  · have hneg : x < 0 := lt_of_not_ge h0
    have hce : ⌈x⌉ ≤ (0 : Int) := Int.ceil_le.mpr (by exact_mod_cast hneg.le)
    have hceK : (⌈x⌉ : K) ≤ 0 := by exact_mod_cast hce
    have hle : x ≤ (⌈x⌉ : K) := Int.le_ceil x
    have hlt : (⌈x⌉ : K) < x + 1 := Int.ceil_lt_add_one x
    have hxa : |x| = -x := abs_of_neg hneg
    have hlb : -(2 : K) ^ 31 < (⌈x⌉ : K) := by
      rw [hxa] at hx
      linarith
    have hlbZ : -2 ^ 31 < ⌈x⌉ := by exact_mod_cast hlb
    refine ⟨⌈x⌉, ?_, ?_, ?_, ?_⟩
    · have hr : -2 ^ 31 ≤ ⌈x⌉ ∧ ⌈x⌉ ≤ 2 ^ 31 - 1 := by constructor <;> omega
      simp only [doubleToInt, h0, if_false, hr, and_self, if_true]
    · rw [hxa, abs_of_nonpos hceK]; linarith
    · rw [hxa, abs_of_nonpos hceK]; linarith
    · exact mul_nonneg_of_nonpos_of_nonpos hceK hneg.le

/-- C5: one control-loop iteration at the instant `now` (both clock reads return `now`): when
`now - cmd_time_ > cmd_time_out_` the members become `left = right = 0`, `last_update = now`;
otherwise all three are unchanged. In both cases the pair handed to `sendMotorCmd` is the
setpoint after the check. -/
theorem controlLoopStep_timeout [FloorRing K] (cfg : Config K) (isOpen : Bool) (now : K)
    (s : Command K) :
    (controlLoopStep cfg isOpen now now s).1 =
        (if now - s.cmd_time > cfg.cmd_time_out then
          { cmd_left := 0, cmd_right := 0, cmd_time := now }
        else s) ∧
      (controlLoopStep cfg isOpen now now s).2.1 =
        ((controlLoopStep cfg isOpen now now s).1.cmd_left,
          (controlLoopStep cfg isOpen now now s).1.cmd_right) ∧
      (controlLoopStep cfg isOpen now now s).2.2 =
        sendMotorCmd isOpen (controlLoopStep cfg isOpen now now s).1.cmd_left
          (controlLoopStep cfg isOpen now now s).1.cmd_right := by
  refine ⟨?_, rfl, rfl⟩
  simp only [controlLoopStep, controlLoopTimeout]

theorem clampTo_bounds (m x : K) (hm : 0 ≤ m) : -m ≤ clampTo m x ∧ clampTo m x ≤ m := by
  unfold clampTo
  split_ifs with h1 h2
  · exact ⟨by linarith, le_refl m⟩
  · exact ⟨le_refl _, by linarith⟩
  · exact ⟨not_lt.mp h2, not_lt.mp h1⟩

theorem thresholdVelocity_eq_clampTo (cfg : Config K) (hm : 0 ≤ cfg.maximum_vel)
    (s : Command K) :
    thresholdVelocity cfg s =
      { cmd_left := clampTo cfg.maximum_vel s.cmd_left
        cmd_right := clampTo cfg.maximum_vel s.cmd_right
        cmd_time := s.cmd_time } := by
  obtain ⟨l, r, t⟩ := s
  have hneg : ¬ cfg.maximum_vel < -cfg.maximum_vel := by
    intro h
    linarith
  unfold thresholdVelocity clampTo
  by_cases h1 : cfg.maximum_vel < l <;> by_cases h2 : l < -cfg.maximum_vel <;>
    by_cases h3 : cfg.maximum_vel < r <;> by_cases h4 : r < -cfg.maximum_vel <;>
    simp [h1, h2, h3, h4, hneg]

/-- C6, as stated, fails for a NaN input: with `maximum_vel_ = 1 ≥ 0` the wheel command
(NaN, 5) is stored as (NaN, 1). The four comparisons of `thresholdVelocity` are false for NaN,
so it is stored as it came, and NaN is not in `[-1, 1]`. -/
theorem diffCmdCallback_stores_nan :
    (0 : NanOr ℚ) ≤ (nanConfig (defaultConfig : Config ℚ)).maximum_vel ∧
      diffCmdCallback (nanConfig (defaultConfig : Config ℚ)) NanOr.nan (NanOr.num 5)
          (NanOr.num 7) ⟨NanOr.num 0, NanOr.num 0, NanOr.num 0⟩ =
        ⟨NanOr.nan, NanOr.num 1, NanOr.num 7⟩ ∧
      ¬ (-(nanConfig (defaultConfig : Config ℚ)).maximum_vel ≤ (NanOr.nan : NanOr ℚ)) ∧
      ¬ ((NanOr.nan : NanOr ℚ) ≤ (nanConfig (defaultConfig : Config ℚ)).maximum_vel) := by
  decide

/-- C6, amended: with `maximum_vel_ ≥ 0`, and `body_width_` and the inputs finite numbers (no
NaN), after `cmdVelCallback` (setVelocity) the stored pair is the clamp of `diffToLR(vx, wz)`,
after `diffCmdCallback` (setWheelCommand) it is the clamp of the raw `(left, right)`; the clamp keeps a value inside `[-maximum_vel_, maximum_vel_]`, turns a larger
one into `maximum_vel_` and a smaller one into `-maximum_vel_`, so both stored fields lie in the
interval. The members after a call do not depend on the members before it: the later call
determines the setpoint. -/
theorem callbacks_clamp_setpoint (cfg : Config K) (hm : 0 ≤ cfg.maximum_vel)
    (vx wz left right now : K) (s : Command K) :
    cmdVelCallback cfg vx wz now s =
        { cmd_left := clampTo cfg.maximum_vel (diffToLR cfg.body_width vx wz).1
          cmd_right := clampTo cfg.maximum_vel (diffToLR cfg.body_width vx wz).2
          cmd_time := now } ∧
      diffCmdCallback cfg left right now s =
        { cmd_left := clampTo cfg.maximum_vel left
          cmd_right := clampTo cfg.maximum_vel right
          cmd_time := now } ∧
      (∀ x : K, -cfg.maximum_vel ≤ clampTo cfg.maximum_vel x ∧
        clampTo cfg.maximum_vel x ≤ cfg.maximum_vel) ∧
      (∀ x : K, (cfg.maximum_vel < x → clampTo cfg.maximum_vel x = cfg.maximum_vel) ∧
        (x < -cfg.maximum_vel → clampTo cfg.maximum_vel x = -cfg.maximum_vel) ∧
        (-cfg.maximum_vel ≤ x → x ≤ cfg.maximum_vel → clampTo cfg.maximum_vel x = x)) := by
  refine ⟨?_, ?_, fun x => clampTo_bounds _ x hm, fun x => ⟨?_, ?_, ?_⟩⟩
  · simp only [cmdVelCallback, thresholdVelocity_eq_clampTo cfg hm]
  · simp only [diffCmdCallback, thresholdVelocity_eq_clampTo cfg hm]
  · intro h
    simp [clampTo, h]
  · intro h
    have h' : ¬ cfg.maximum_vel < x := by
      intro h2
      linarith
    simp [clampTo, h, h']
  · intro h1 h2
    simp [clampTo, not_lt.mpr h1, not_lt.mpr h2]

/-- Witness of C6, amended: the default configuration (`maximum_vel_ = 1`, `body_width_ = 1`);
the twist
(2, 2) gives wheel speeds (1, 3), stored as (1, 1); the wheel command (5, -1/2) is stored as
(1, -1/2), whatever was stored before. -/
theorem callbacks_clamp_setpoint_witness :
    (0 : ℚ) ≤ (defaultConfig : Config ℚ).maximum_vel ∧
      (cmdVelCallback (defaultConfig : Config ℚ) 2 2 7 ⟨9, 9, 3⟩ =
          { cmd_left := clampTo (defaultConfig : Config ℚ).maximum_vel
              (diffToLR (defaultConfig : Config ℚ).body_width 2 2).1
            cmd_right := clampTo (defaultConfig : Config ℚ).maximum_vel
              (diffToLR (defaultConfig : Config ℚ).body_width 2 2).2
            cmd_time := 7 } ∧
        diffCmdCallback (defaultConfig : Config ℚ) 5 (-1 / 2) 7 ⟨9, 9, 3⟩ =
          { cmd_left := clampTo (defaultConfig : Config ℚ).maximum_vel 5
            cmd_right := clampTo (defaultConfig : Config ℚ).maximum_vel (-1 / 2)
            cmd_time := 7 }) ∧
      cmdVelCallback (defaultConfig : Config ℚ) 2 2 7 ⟨9, 9, 3⟩ = ⟨1, 1, 7⟩ ∧
      diffCmdCallback (defaultConfig : Config ℚ) 5 (-1 / 2) 7 ⟨9, 9, 3⟩ = ⟨1, -1 / 2, 7⟩ :=
  ⟨by decide,
    ⟨(callbacks_clamp_setpoint (defaultConfig : Config ℚ) (by decide) 2 2 5 (-1 / 2) 7
        ⟨9, 9, 3⟩).1,
      (callbacks_clamp_setpoint (defaultConfig : Config ℚ) (by decide) 2 2 5 (-1 / 2) 7
        ⟨9, 9, 3⟩).2.1⟩,
    by norm_num [cmdVelCallback, diffToLR, thresholdVelocity, defaultConfig],
    by norm_num [diffCmdCallback, thresholdVelocity, defaultConfig]⟩

/-! ## MotionIntegrator: kinematics -/

/-- C7: for a nonzero `body_width_`, `LRtoDiff` applied to the result of `diffToLR(vx, wz)`
gives back `(vx, wz)`, where `diffToLR` yields `vl = vx - (body_width_/2)·wz` and
`vr = vx + (body_width_/2)·wz`. -/
theorem LRtoDiff_diffToLR (body_width vx wz : K) (hb : body_width ≠ 0) :
    diffToLR body_width vx wz = (vx - body_width / 2 * wz, vx + body_width / 2 * wz) ∧
      LRtoDiff body_width (diffToLR body_width vx wz).1 (diffToLR body_width vx wz).2 =
        (vx, wz) := by
  refine ⟨rfl, ?_⟩
  simp only [LRtoDiff, diffToLR, Prod.mk.injEq]
  constructor
  · ring
  · field_simp

/-- Witness of C7: `body_width_ = 1/2`, `(vx, wz) = (3, 4)` maps to wheel speeds `(2, 4)` and
back. -/
theorem LRtoDiff_diffToLR_witness :
    (1 / 2 : ℚ) ≠ 0 ∧ diffToLR (1 / 2 : ℚ) 3 4 = (2, 4) ∧
      LRtoDiff (1 / 2 : ℚ) (diffToLR (1 / 2 : ℚ) 3 4).1 (diffToLR (1 / 2 : ℚ) 3 4).2 = (3, 4) :=
  ⟨by norm_num, by norm_num [diffToLR], (LRtoDiff_diffToLR (1 / 2 : ℚ) 3 4 (by norm_num)).2⟩

end Governor

/-! ## Lemmas on the guard of `integrateExact` -/

section Guard

variable {K : Type} [LinearOrderedField K]

theorem fabs_eq_abs (x : K) : fabs x = |x| := by
  unfold fabs
  split_ifs with h
  · exact (abs_of_neg h).symm
  · exact (abs_of_nonneg (not_lt.mp h)).symm

theorem angularThreshold_pos : (0 : K) < angularThreshold := by
  unfold angularThreshold
  norm_num

theorem angularThreshold_lt : (angularThreshold : K) < 1 / 1000000 := by
  unfold angularThreshold
  norm_num

theorem angularThreshold_eq : (angularThreshold : K) = 4722366482869645 / 2 ^ 72 := by
  unfold angularThreshold
  norm_num

theorem integrateExact_eq_ite (sin cos : K → K) (linear angular : K) (p : Pose K) :
    integrateExact sin cos linear angular p =
      if |angular| < angularThreshold then integrateRungeKutta2 sin cos linear angular p
      else integrateArc sin cos linear angular p := by
  simp only [integrateExact, integrateArc, fabs_eq_abs]

theorem abs_zero_lt_angularThreshold : |(0 : K)| < angularThreshold := by
  rw [abs_zero]
  exact angularThreshold_pos

theorem integrateExact_zero_angular (sin cos : K → K) (linear : K) (p : Pose K) :
    integrateExact sin cos linear 0 p =
      { px := p.px + linear * cos p.theta
        py := p.py + linear * sin p.theta
        theta := p.theta } := by
  rw [integrateExact_eq_ite, if_pos abs_zero_lt_angularThreshold]
  simp only [integrateRungeKutta2, zero_mul, add_zero]

theorem integrateExact_zero (sin cos : K → K) (p : Pose K) :
    integrateExact sin cos 0 0 p = p := by
  rw [integrateExact_zero_angular]
  simp

end Guard

/-! ## OdometryEstimator: the windowed speed -/

section Odometry

variable {K : Type} [LinearOrderedField K]

theorem processOdom_warm_up (cfg : Config K) (sin cos : K → K) (now dl0 dr0 : K)
    (left right : Int) (s : Estimator K) (h : (s.queue.length : Int) ≠ cfg.odom_window) :
    processOdom cfg sin cos now dl0 dr0 left right s =
      some (processOdomTail cfg sin cos
        { stamp := now, left_travel := leftTravel cfg left,
          right_travel := rightTravel cfg right, left_speed := 0, right_speed := 0 }
        dl0 dr0 s.queue s) := by
  simp only [processOdom, h, if_false]

theorem processOdom_at_capacity (cfg : Config K) (sin cos : K → K) (now dl0 dr0 : K)
    (left right : Int) (s : Estimator K) (front : DiffOdom K) (rest : List (DiffOdom K))
    (hq : s.queue = front :: rest) (h : (s.queue.length : Int) = cfg.odom_window)
    (hdt : ¬ now - front.stamp < 1 / 100000) :
    processOdom cfg sin cos now dl0 dr0 left right s =
      some (processOdomTail cfg sin cos
        { stamp := now, left_travel := leftTravel cfg left,
          right_travel := rightTravel cfg right,
          left_speed := (leftTravel cfg left - front.left_travel) / (now - front.stamp),
          right_speed := (rightTravel cfg right - front.right_travel) / (now - front.stamp) }
        (leftTravel cfg left - s.old.left_travel) (rightTravel cfg right - s.old.right_travel)
        rest s) := by
  unfold processOdom
  simp only [h, if_true]
  rw [hq]
  simp only [hdt, if_false]

theorem processOdom_stale (cfg : Config K) (sin cos : K → K) (now dl0 dr0 : K)
    (left right : Int) (s : Estimator K) (front : DiffOdom K) (rest : List (DiffOdom K))
    (hq : s.queue = front :: rest) (h : (s.queue.length : Int) = cfg.odom_window)
    (hdt : now - front.stamp < 1 / 100000) :
    processOdom cfg sin cos now dl0 dr0 left right s = some s := by
  unfold processOdom
  simp only [h, if_true]
  rw [hq]
  simp only [hdt, if_true]

theorem spaced_calls_increase (calls : Nat → OdomCall K) (k : Nat)
    (hsp : ∀ i, i + 1 < k → (calls i).now + 1 / 100000 ≤ (calls (i + 1)).now) (i : Nat) :
    ∀ j, i < j → j < k → (calls i).now + 1 / 100000 ≤ (calls j).now := by
  intro j
  induction j with
  | zero => intro h; omega
  | succ j ih =>
    intro hij hjk
    have hstep := hsp j hjk
    rcases Nat.lt_succ_iff_lt_or_eq.mp hij with hlt | heq
    · have := ih hlt (by omega)
      have hpos : (0 : K) ≤ 1 / 100000 := by norm_num
      linarith
    · subst heq
      exact hstep

theorem processOdomRun_invariant (cfg : Config K) (sin cos : K → K)
    (calls : Nat → OdomCall K) (W : Nat) (hW : 1 ≤ W) (hcfg : cfg.odom_window = (W : Int))
    (s0 : Estimator K) (hs0 : s0.queue = []) :
    ∀ k : Nat, (∀ i, i + 1 < k → (calls i).now + 1 / 100000 ≤ (calls (i + 1)).now) →
      ∃ s, processOdomRun cfg sin cos calls k s0 = some s ∧
        s.queue.map sampleCore =
          (List.range' (k - min k W) (min k W)).map (fun j => callCore cfg (calls j)) ∧
        (1 ≤ k → k ≤ W → s.vl = 0 ∧ s.vr = 0) ∧
        (W < k →
          s.vl = (leftTravel cfg (calls (k - 1)).left - leftTravel cfg (calls (k - 1 - W)).left) /
              ((calls (k - 1)).now - (calls (k - 1 - W)).now) ∧
          s.vr = (rightTravel cfg (calls (k - 1)).right -
                rightTravel cfg (calls (k - 1 - W)).right) /
              ((calls (k - 1)).now - (calls (k - 1 - W)).now)) := by
  intro k
  induction k with
  | zero =>
    intro _
    refine ⟨s0, rfl, ?_, ?_, ?_⟩
    · simp [hs0]
    · intro h; omega
    · intro h; omega
  | succ k ih =>
    intro hsp
    obtain ⟨s, hrun, hq, -, -⟩ := ih (fun i hi => hsp i (by omega))
    have hlen : s.queue.length = min k W := by
      have := congrArg List.length hq
      simpa using this
    have hrun1 : processOdomRun cfg sin cos calls (k + 1) s0 =
        processOdom cfg sin cos (calls k).now (calls k).dl0 (calls k).dr0 (calls k).left
          (calls k).right s := by
      simp [processOdomRun, hrun]
    rw [hrun1]
    by_cases hk : k < W
    · have hmin : min k W = k := Nat.min_eq_left hk.le
      have hmin1 : min (k + 1) W = k + 1 := Nat.min_eq_left hk
      have hne : (s.queue.length : Int) ≠ cfg.odom_window := by
        rw [hcfg, hlen, hmin]
        omega
      rw [processOdom_warm_up cfg sin cos _ _ _ _ _ s hne]
      refine ⟨_, rfl, ?_, ?_, ?_⟩
      · rw [hmin, Nat.sub_self] at hq
        rw [hmin1, Nat.sub_self, List.range'_concat]
        simp [processOdomTail, hq, sampleCore, callCore]
      · intro _ _
        exact ⟨rfl, rfl⟩
      · intro h; omega
    · have hkW : W ≤ k := Nat.le_of_not_lt hk
      have hmin : min k W = W := Nat.min_eq_right hkW
      have hmin1 : min (k + 1) W = W := Nat.min_eq_right (by omega)
      have heq : (s.queue.length : Int) = cfg.odom_window := by
        rw [hcfg, hlen, hmin]
      obtain ⟨W1, rfl⟩ : ∃ W1, W = W1 + 1 := ⟨W - 1, by omega⟩
      rw [hmin, List.range'_succ] at hq
      cases hqe : s.queue with
      | nil =>
        rw [hqe] at hq
        simp at hq
      | cons front rest =>
        rw [hqe] at hq
        simp only [List.map_cons, List.cons.injEq] at hq
        obtain ⟨hfront, hrest⟩ := hq
        have hstamp : front.stamp = (calls (k - (W1 + 1))).now := by
          have := congrArg Prod.fst hfront
          simpa [sampleCore, callCore] using this
        have hlt : front.left_travel = leftTravel cfg (calls (k - (W1 + 1))).left := by
          have := congrArg (fun p => p.2.1) hfront
          simpa [sampleCore, callCore] using this
        have hrt : front.right_travel = rightTravel cfg (calls (k - (W1 + 1))).right := by
          have := congrArg (fun p => p.2.2) hfront
          simpa [sampleCore, callCore] using this
        have hinc := spaced_calls_increase calls (k + 1) hsp (k - (W1 + 1)) k (by omega)
          (by omega)
        have hdt : ¬ (calls k).now - front.stamp < 1 / 100000 := by
          rw [hstamp, not_lt]
          linarith
        rw [processOdom_at_capacity cfg sin cos _ _ _ _ _ s front rest hqe heq hdt]
        refine ⟨_, rfl, ?_, ?_, ?_⟩
        · rw [hmin1, List.range'_concat]
          have e1 : k + 1 - (W1 + 1) = k - (W1 + 1) + 1 := by omega
          have e2 : k - (W1 + 1) + 1 + 1 * W1 = k := by omega
          rw [e1, e2]
          simp [processOdomTail, hrest, sampleCore, callCore]
        · intro _ h
          omega
        · intro _
          simp only [processOdomTail, hlt, hrt, hstamp, Nat.add_sub_cancel, and_self]

/-- C8: with a window size `W ≥ 1`, from an empty window, for calls whose timestamps increase
by at least 1e-5 s from one call to the next: every one of the first `k` calls completes, the
speed estimate `(vl_, vr_)` is zero after push `k` when `k ≤ W`, and when `k > W` it is, on each
side, the travel of sample `k` minus the travel of sample `k - W`, divided by the difference of
their timestamps (samples numbered from 1; `calls i` is sample `i + 1`). -/
theorem processOdom_windowed_speed (cfg : Config K) (sin cos : K → K)
    (calls : Nat → OdomCall K) (W : Nat) (hW : 1 ≤ W) (hcfg : cfg.odom_window = (W : Int))
    (s0 : Estimator K) (hs0 : s0.queue = []) (k : Nat) (hk : 1 ≤ k)
    (hsp : ∀ i, i + 1 < k → (calls i).now + 1 / 100000 ≤ (calls (i + 1)).now) :
    ∃ s, processOdomRun cfg sin cos calls k s0 = some s ∧
      (k ≤ W → s.vl = 0 ∧ s.vr = 0) ∧
      (W < k →
        s.vl = (leftTravel cfg (calls (k - 1)).left - leftTravel cfg (calls (k - 1 - W)).left) /
            ((calls (k - 1)).now - (calls (k - 1 - W)).now) ∧
        s.vr = (rightTravel cfg (calls (k - 1)).right -
              rightTravel cfg (calls (k - 1 - W)).right) /
            ((calls (k - 1)).now - (calls (k - 1 - W)).now)) := by
  obtain ⟨s, hrun, -, hwarm, hfull⟩ :=
    processOdomRun_invariant cfg sin cos calls W hW hcfg s0 hs0 k hsp
  exact ⟨s, hrun, hwarm hk, hfull⟩

/-- Witness of C8: `W = 5`, travels 0, 2, 4, 6, 8, 10 at t = 0, 0.1, ..., 0.5: the speed after
the sixth push is (10 - 0) / 0.5 = 20 on both sides. -/
theorem processOdom_windowed_speed_witness :
    (∀ i, i + 1 < 6 →
        (steadyCalls i : OdomCall ℝ).now + 1 / 100000 ≤ (steadyCalls (i + 1) : OdomCall ℝ).now) ∧
      ∃ s, processOdomRun (defaultConfig : Config ℝ) Real.sin Real.cos steadyCalls 6
          zeroEstimator = some s ∧ s.vl = 20 ∧ s.vr = 20 := by
  have hsp : ∀ i, i + 1 < 6 →
      (steadyCalls i : OdomCall ℝ).now + 1 / 100000 ≤ (steadyCalls (i + 1) : OdomCall ℝ).now := by
    intro i _
    simp only [steadyCalls]
    push_cast
    linarith
  obtain ⟨s, hrun, -, hfull⟩ :=
    processOdom_windowed_speed (defaultConfig : Config ℝ) Real.sin Real.cos steadyCalls 5
      (by decide) rfl zeroEstimator rfl 6 (by decide) hsp
  obtain ⟨hvl, hvr⟩ := hfull (by decide)
  refine ⟨hsp, s, hrun, ?_, ?_⟩
  · rw [hvl]
    norm_num [steadyCalls, leftTravel, defaultConfig]
  · rw [hvr]
    norm_num [steadyCalls, rightTravel, defaultConfig]

end Odometry

/-! ## Scheduler: the odometry cycle -/

section Cycle

variable {K : Type} [LinearOrderedField K]

theorem odomLoopTicks_malformed (flip_lr : Bool) (io : SerialInput) (left right : Int)
    (hmal : ∀ d, io.dataStr = some d → d.count ',' < 2) :
    odomLoopTicks flip_lr io left right = (left, right) := by
  have hparse : ∀ d l r, io.dataStr = some d → parseOdomStr d l r = ⟨false, l, r⟩ := by
    intro d l r hd
    unfold parseOdomStr
    rcases commaIds_of_count_lt_two d (hmal d hd) with h0 | ⟨i, h1⟩
    · rw [h0]
    · rw [h1]
  obtain ⟨av, tmp, data⟩ := io
  cases av with
  | false => rfl
  | true =>
    cases tmp with
    | none => rfl
    | some tmpStr =>
      cases data with
      | none =>
        simp only [odomLoopTicks, if_true]
        split_ifs <;> rfl
      | some dataStr =>
        have h1 := hparse dataStr left right rfl
        have h2 := hparse dataStr right left rfl
        simp only [odomLoopTicks, if_true, h1, h2]
        split_ifs <;> rfl

/-- C9, as stated, fails. With a window of one sample, after the frames `ODOMS,0,0,ODOME\n` at
t = 0 and `ODOMS,20,20,ODOME\n` at t = 1 the speed estimate is (10, 10); the cycle at t = 2 that
receives the malformed frame `ODOMS,12ODOME\n` still calls `processOdom` with the old ticks and
leaves the speed estimate at (0, 0). -/
theorem odomLoopStep_malformed_changes_speed :
    (odomLoopStep (windowOneConfig : Config ℝ) Real.sin Real.cos (frameInput "0,0,ODOME\n")
        0 0 0 ⟨0, 0, zeroEstimator⟩).bind
      (odomLoopStep (windowOneConfig : Config ℝ) Real.sin Real.cos
        (frameInput "20,20,ODOME\n") 1 0 0) = some movedLoop ∧
      odomLoopStep (windowOneConfig : Config ℝ) Real.sin Real.cos (frameInput "12ODOME\n")
        2 0 0 movedLoop = some stalledLoop ∧
      ((movedLoop : OdomLoop ℝ).est.vl, (movedLoop : OdomLoop ℝ).est.vr) = (10, 10) ∧
      ((stalledLoop : OdomLoop ℝ).est.vl, (stalledLoop : OdomLoop ℝ).est.vr) = (0, 0) := by
  have tA : odomLoopTicks false (frameInput "0,0,ODOME\n") 0 0 = (0, 0) := by decide
  have tB : odomLoopTicks false (frameInput "20,20,ODOME\n") 0 0 = (20, 20) := by decide
  have tC : odomLoopTicks false (frameInput "12ODOME\n") 20 20 = (20, 20) := by decide
  have hflip : (windowOneConfig : Config ℝ).flip_lr = false := rfl
  have hwin : (windowOneConfig : Config ℝ).odom_window = 1 := rfl
  have hA : odomLoopStep (windowOneConfig : Config ℝ) Real.sin Real.cos
      (frameInput "0,0,ODOME\n") 0 0 0 ⟨0, 0, zeroEstimator⟩ =
      some startedLoop := by
    unfold odomLoopStep
    simp only [hflip, tA]
    rw [processOdom_warm_up _ _ _ _ _ _ _ _ _ (by rw [hwin]; simp [zeroEstimator])]
    simp [processOdomTail, zeroEstimator, startedLoop, leftTravel, rightTravel, LRtoDiff,
      integrateExact_zero]
  have hB : odomLoopStep (windowOneConfig : Config ℝ) Real.sin Real.cos
      (frameInput "20,20,ODOME\n") 1 0 0
      startedLoop = some movedLoop := by
    unfold odomLoopStep
    have hl : (startedLoop : OdomLoop ℝ).left = 0 := rfl
    have hr : (startedLoop : OdomLoop ℝ).right = 0 := rfl
    simp only [hflip, hl, hr, tB]
    rw [processOdom_at_capacity _ _ _ _ _ _ _ _ _ ⟨0, 0, 0, 0, 0⟩ [] rfl
      (by rw [hwin]; simp [startedLoop]) (by norm_num)]
    simp [processOdomTail, movedLoop, startedLoop, leftTravel, rightTravel, LRtoDiff,
      integrateExact_zero_angular, windowOneConfig, defaultConfig]
    norm_num
  have hC : odomLoopStep (windowOneConfig : Config ℝ) Real.sin Real.cos
      (frameInput "12ODOME\n") 2 0 0 movedLoop = some stalledLoop := by
    unfold odomLoopStep
    have hl : (movedLoop : OdomLoop ℝ).left = 20 := rfl
    have hr : (movedLoop : OdomLoop ℝ).right = 20 := rfl
    simp only [hflip, hl, hr, tC]
    rw [processOdom_at_capacity _ _ _ _ _ _ _ _ _ ⟨1, 10, 10, 10, 10⟩ [] rfl
      (by rw [hwin]; simp [movedLoop]) (by norm_num)]
    simp [processOdomTail, movedLoop, stalledLoop, leftTravel, rightTravel, LRtoDiff,
      integrateExact_zero_angular, windowOneConfig, defaultConfig]
    norm_num
  refine ⟨?_, hC, ?_, ?_⟩
  · rw [hA]
    exact hB
  · simp [movedLoop]
  · simp [stalledLoop]

/-- C9, amended: for every loop state whose window is at capacity (`W ≥ 1` samples) and whose
retained previous sample holds the travel of the loop's current tick pair (as after any cycle
that stored its sample), with a nonzero `body_width_`: a cycle in which the payload read, if any,
has fewer than two commas (such as the frame `ODOMS,12ODOME\n`) completes, keeps the tick pair,
and leaves the pose `(x, y, theta)` equal to the pose before the cycle. The speed estimate is
recomputed against the window front and is not claimed to stay the same. -/
theorem odomLoopStep_malformed_keeps_pose (cfg : Config K) (sin cos : K → K)
    (io : SerialInput) (now dl0 dr0 : K) (s : OdomLoop K)
    (_hbw : cfg.body_width ≠ 0)
    (hmal : ∀ d, io.dataStr = some d → d.count ',' < 2)
    (hW : 1 ≤ cfg.odom_window)
    (hcap : (s.est.queue.length : Int) = cfg.odom_window)
    (hold : s.est.old.left_travel = leftTravel cfg s.left ∧
      s.est.old.right_travel = rightTravel cfg s.right) :
    ∃ s1, odomLoopStep cfg sin cos io now dl0 dr0 s = some s1 ∧
      s1.left = s.left ∧ s1.right = s.right ∧ s1.est.pose = s.est.pose := by
  have hticks := odomLoopTicks_malformed cfg.flip_lr io s.left s.right hmal
  unfold odomLoopStep
  simp only [hticks]
  cases hq : s.est.queue with
  | nil =>
    rw [hq] at hcap
    simp only [List.length_nil, Nat.cast_zero] at hcap
    omega
  | cons front rest =>
    by_cases hdt : now - front.stamp < 1 / 100000
    · rw [processOdom_stale cfg sin cos now dl0 dr0 s.left s.right s.est front rest hq hcap hdt]
      exact ⟨_, rfl, rfl, rfl, rfl⟩
    · rw [processOdom_at_capacity cfg sin cos now dl0 dr0 s.left s.right s.est front rest hq
        hcap hdt]
      refine ⟨_, rfl, rfl, rfl, ?_⟩
      simp only [Option.map_some', processOdomTail, hold.1, hold.2, sub_self, LRtoDiff,
        add_zero, zero_mul, zero_div, integrateExact_zero]

/-- Witness of C9, amended: the state `movedLoop` (window of one sample, ticks (20, 20), travel
10 retained, pose (10, 0, 0)) and the malformed frame `ODOMS,12ODOME\n` at t = 2. -/
theorem odomLoopStep_malformed_keeps_pose_witness :
    ((windowOneConfig : Config ℝ).body_width ≠ 0 ∧
      (∀ d, (frameInput "12ODOME\n").dataStr = some d → d.count ',' < 2) ∧
      1 ≤ (windowOneConfig : Config ℝ).odom_window ∧
      ((movedLoop : OdomLoop ℝ).est.queue.length : Int) =
        (windowOneConfig : Config ℝ).odom_window ∧
      (movedLoop : OdomLoop ℝ).est.old.left_travel =
        leftTravel windowOneConfig (movedLoop : OdomLoop ℝ).left ∧
      (movedLoop : OdomLoop ℝ).est.old.right_travel =
        rightTravel windowOneConfig (movedLoop : OdomLoop ℝ).right) ∧
      ∃ s1, odomLoopStep (windowOneConfig : Config ℝ) Real.sin Real.cos
          (frameInput "12ODOME\n") 2 0 0 movedLoop = some s1 ∧
        s1.left = 20 ∧ s1.right = 20 ∧ s1.est.pose = ⟨10, 0, 0⟩ := by
  have hbw : (windowOneConfig : Config ℝ).body_width ≠ 0 := by
    simp [windowOneConfig, defaultConfig]
  have hmal : ∀ d, (frameInput "12ODOME\n").dataStr = some d → d.count ',' < 2 := by
    intro d hd
    simp only [frameInput, Option.some.injEq] at hd
    subst hd
    decide
  have hW : 1 ≤ (windowOneConfig : Config ℝ).odom_window := by
    simp [windowOneConfig]
  have hcap : ((movedLoop : OdomLoop ℝ).est.queue.length : Int) =
      (windowOneConfig : Config ℝ).odom_window := by
    simp [windowOneConfig, movedLoop]
  have hl : (movedLoop : OdomLoop ℝ).est.old.left_travel =
      leftTravel windowOneConfig (movedLoop : OdomLoop ℝ).left := by
    norm_num [movedLoop, leftTravel, windowOneConfig, defaultConfig]
  have hr : (movedLoop : OdomLoop ℝ).est.old.right_travel =
      rightTravel windowOneConfig (movedLoop : OdomLoop ℝ).right := by
    norm_num [movedLoop, rightTravel, windowOneConfig, defaultConfig]
  exact ⟨⟨hbw, hmal, hW, hcap, hl, hr⟩,
    odomLoopStep_malformed_keeps_pose (windowOneConfig : Config ℝ) Real.sin Real.cos
      (frameInput "12ODOME\n") 2 0 0 movedLoop hbw hmal hW hcap ⟨hl, hr⟩⟩

/-- C10, as stated, fails: with `flip_lr_ = false` the frame `ODOMS,1,2,ODOME\n`, whose fields
decode to `f1 = 1`, `f2 = 2`, makes the loop call `processOdom(left, right)` with `left = 2` and
`right = 1`: the first field is the right tick count. -/
theorem odomLoopTicks_unflipped_first_field_is_right :
    parseOdomStr "1,2,ODOME\n".toList 0 0 = ⟨true, 1, 2⟩ ∧
      odomLoopTicks false (frameInput "1,2,ODOME\n") 0 0 = (2, 1) ∧
      odomLoopTicks true (frameInput "1,2,ODOME\n") 0 0 = (1, 2) := by
  decide

/-- C10, amended: for every frame that is read (`ODOMS,` found, payload delivered) and decoded
successfully to the fields `f1`, `f2`: when `flip_lr_` is false the cycle calls
`processOdom(left, right)` with `left = f2` and `right = f1`; when `flip_lr_` is true with
`left = f1` and `right = f2`. -/
theorem odomLoopStep_field_order (cfg : Config K) (sin cos : K → K) (io : SerialInput)
    (now dl0 dr0 : K) (s : OdomLoop K) (tmpStr dataStr : List Char) (l0 r0 f1 f2 : Int)
    (hav : io.available = true) (htmp : io.tmpStr = some tmpStr)
    (hlast : tmpStr.getLast? = some ',') (hdata : io.dataStr = some dataStr)
    (hparse : parseOdomStr dataStr l0 r0 = ⟨true, f1, f2⟩) :
    odomLoopTicks cfg.flip_lr io s.left s.right =
        (if cfg.flip_lr then (f1, f2) else (f2, f1)) ∧
      odomLoopStep cfg sin cos io now dl0 dr0 s =
        (if cfg.flip_lr then
          (processOdom cfg sin cos now dl0 dr0 f1 f2 s.est).map
            fun est => { left := f1, right := f2, est := est }
        else
          (processOdom cfg sin cos now dl0 dr0 f2 f1 s.est).map
            fun est => { left := f2, right := f1, est := est }) := by
  have hne : tmpStr.isEmpty = false := by
    cases tmpStr with
    | nil => simp at hlast
    | cons c cs => rfl
  have h1 := parseOdomStr_of_ok dataStr l0 r0 f1 f2 hparse s.left s.right
  have h2 := parseOdomStr_of_ok dataStr l0 r0 f1 f2 hparse s.right s.left
  have hticks : odomLoopTicks cfg.flip_lr io s.left s.right =
      (if cfg.flip_lr then (f1, f2) else (f2, f1)) := by
    simp only [odomLoopTicks, hav, htmp, hdata, hlast, hne, h1, h2, if_true, Bool.not_false,
      Bool.true_and, beq_self_eq_true]
  refine ⟨hticks, ?_⟩
  unfold odomLoopStep
  simp only [hticks]
  cases cfg.flip_lr <;> rfl

/-- Witness of C10, amended: the frame `ODOMS,1,2,ODOME\n` with `flip_lr_ = false` hands
(left, right) = (2, 1) to the estimator. -/
theorem odomLoopStep_field_order_witness :
    ((frameInput "1,2,ODOME\n").available = true ∧
      (frameInput "1,2,ODOME\n").tmpStr = some "ODOMS,".toList ∧
      "ODOMS,".toList.getLast? = some ',' ∧
      (frameInput "1,2,ODOME\n").dataStr = some "1,2,ODOME\n".toList ∧
      parseOdomStr "1,2,ODOME\n".toList 0 0 = ⟨true, 1, 2⟩) ∧
      odomLoopTicks (defaultConfig : Config ℝ).flip_lr (frameInput "1,2,ODOME\n") 7 8 =
        (2, 1) :=
  ⟨⟨rfl, rfl, by decide, rfl, by decide⟩,
    (odomLoopStep_field_order (defaultConfig : Config ℝ) Real.sin Real.cos
      (frameInput "1,2,ODOME\n") 0 0 0 ⟨7, 8, zeroEstimator⟩ "ODOMS,".toList
      "1,2,ODOME\n".toList 0 0 1 2 rfl rfl (by decide) rfl (by decide)).1⟩

end Cycle

/-! ## OdometryEstimator: the stale-sample guard and the window size -/

section Window

variable {K : Type} [LinearOrderedField K]

/-- C11: when the window is at capacity and the new timestamp minus the stamp of the window
front is below 1e-5 s, `processOdom` returns at once: the queue, the retained previous sample,
the speed estimate `(vl_, vr_, vx_, wz_)` and the pose are what they were. -/
theorem processOdom_stale_sample_guard (cfg : Config K) (sin cos : K → K) (now dl0 dr0 : K)
    (left right : Int) (s : Estimator K) (front : DiffOdom K) (rest : List (DiffOdom K))
    (hq : s.queue = front :: rest) (hcap : (s.queue.length : Int) = cfg.odom_window)
    (hdt : now - front.stamp < 1 / 100000) :
    ∃ s1, processOdom cfg sin cos now dl0 dr0 left right s = some s1 ∧
      s1.queue = s.queue ∧ s1.old = s.old ∧
      (s1.vl, s1.vr, s1.vx, s1.wz) = (s.vl, s.vr, s.vx, s.wz) ∧ s1.pose = s.pose := by
  refine ⟨s, ?_, rfl, rfl, rfl, rfl⟩
  exact processOdom_stale cfg sin cos now dl0 dr0 left right s front rest hq hcap hdt

/-- Witness of C11: the members of `movedLoop` (window of one sample stamped 1) and a call with
new ticks (30, 30) at t = 1 + 1e-6: nothing changes. -/
theorem processOdom_stale_sample_guard_witness :
    ((movedLoop : OdomLoop ℝ).est.queue = [⟨1, 10, 10, 10, 10⟩] ∧
      ((movedLoop : OdomLoop ℝ).est.queue.length : Int) =
        (windowOneConfig : Config ℝ).odom_window ∧
      (1 + 1 / 1000000 : ℝ) - (⟨1, 10, 10, 10, 10⟩ : DiffOdom ℝ).stamp < 1 / 100000) ∧
      ∃ s1, processOdom (windowOneConfig : Config ℝ) Real.sin Real.cos (1 + 1 / 1000000) 0 0
          30 30 (movedLoop : OdomLoop ℝ).est = some s1 ∧
        s1.queue = (movedLoop : OdomLoop ℝ).est.queue ∧
        s1.old = (movedLoop : OdomLoop ℝ).est.old ∧
        (s1.vl, s1.vr, s1.vx, s1.wz) =
          ((movedLoop : OdomLoop ℝ).est.vl, (movedLoop : OdomLoop ℝ).est.vr,
            (movedLoop : OdomLoop ℝ).est.vx, (movedLoop : OdomLoop ℝ).est.wz) ∧
        s1.pose = (movedLoop : OdomLoop ℝ).est.pose := by
  have hq : (movedLoop : OdomLoop ℝ).est.queue = [⟨1, 10, 10, 10, 10⟩] := rfl
  have hcap : ((movedLoop : OdomLoop ℝ).est.queue.length : Int) =
      (windowOneConfig : Config ℝ).odom_window := by
    simp [windowOneConfig, movedLoop]
  have hdt : (1 + 1 / 1000000 : ℝ) - (⟨1, 10, 10, 10, 10⟩ : DiffOdom ℝ).stamp < 1 / 100000 := by
    norm_num
  exact ⟨⟨hq, hcap, hdt⟩,
    processOdom_stale_sample_guard (windowOneConfig : Config ℝ) Real.sin Real.cos
      (1 + 1 / 1000000) 0 0 30 30 (movedLoop : OdomLoop ℝ).est ⟨1, 10, 10, 10, 10⟩ [] hq hcap
      hdt⟩

theorem processOdom_queue_step (cfg : Config K) (sin cos : K → K) (now dl0 dr0 : K)
    (left right : Int) (s : Estimator K) (W : Nat) (hW : 1 ≤ W)
    (hcfg : cfg.odom_window = (W : Int)) (hlen : s.queue.length ≤ W) :
    ∃ s1, processOdom cfg sin cos now dl0 dr0 left right s = some s1 ∧
      s1.queue.length ≤ W ∧ (s.queue.length = W → s1.queue.length = W) ∧
      (s1.queue = s.queue ∨ (∃ x, s.queue.length < W ∧ s1.queue = s.queue ++ [x]) ∨
        ∃ x front rest, s.queue = front :: rest ∧ s1.queue = rest ++ [x]) := by
  by_cases hcap : s.queue.length = W
  · have hcapZ : (s.queue.length : Int) = cfg.odom_window := by
      rw [hcfg, hcap]
    obtain ⟨front, rest, hq⟩ : ∃ front rest, s.queue = front :: rest := by
      cases h : s.queue with
      | nil =>
        rw [h] at hcap
        simp only [List.length_nil] at hcap
        omega
      | cons f r => exact ⟨f, r, rfl⟩
    have hrest : rest.length + 1 = W := by
      rw [hq] at hcap
      simpa using hcap
    by_cases hdt : now - front.stamp < 1 / 100000
    · rw [processOdom_stale cfg sin cos now dl0 dr0 left right s front rest hq hcapZ hdt]
      exact ⟨s, rfl, hlen, fun h => h, Or.inl rfl⟩
    · rw [processOdom_at_capacity cfg sin cos now dl0 dr0 left right s front rest hq hcapZ
        hdt]
      refine ⟨_, rfl, ?_, ?_, Or.inr (Or.inr ⟨_, front, rest, hq, rfl⟩)⟩
      · simp only [processOdomTail, List.length_append, List.length_singleton]
        omega
      · intro _
        simp only [processOdomTail, List.length_append, List.length_singleton]
        omega
  · have hne : (s.queue.length : Int) ≠ cfg.odom_window := by
      rw [hcfg]
      intro h
      exact hcap (by exact_mod_cast h)
    have hlt : s.queue.length < W := lt_of_le_of_ne hlen hcap
    rw [processOdom_warm_up cfg sin cos now dl0 dr0 left right s hne]
    refine ⟨_, rfl, ?_, fun h => absurd h hcap, Or.inr (Or.inl ⟨_, hlt, rfl⟩)⟩
    simp only [processOdomTail, List.length_append, List.length_singleton]
    omega

theorem processOdomRun_size (cfg : Config K) (sin cos : K → K) (calls : Nat → OdomCall K)
    (W : Nat) (hW : 1 ≤ W) (hcfg : cfg.odom_window = (W : Int)) (s0 : Estimator K)
    (hs0 : s0.queue = []) :
    ∀ k : Nat, ∃ s, processOdomRun cfg sin cos calls k s0 = some s ∧ s.queue.length ≤ W ∧
      ∀ j, j ≤ k → ∀ sj, processOdomRun cfg sin cos calls j s0 = some sj →
        sj.queue.length = W → s.queue.length = W := by
  intro k
  induction k with
  | zero =>
    refine ⟨s0, rfl, by simp [hs0], ?_⟩
    intro j hj sj hsj hfull
    have hj0 : j = 0 := by omega
    subst hj0
    simp only [processOdomRun, Option.some.injEq] at hsj
    rw [hsj]
    exact hfull
  | succ k ih =>
    obtain ⟨s, hrun, hlen, hstay⟩ := ih
    obtain ⟨s1, hstep, hlen1, hkeep, -⟩ :=
      processOdom_queue_step cfg sin cos (calls k).now (calls k).dl0 (calls k).dr0
        (calls k).left (calls k).right s W hW hcfg hlen
    have hrun1 : processOdomRun cfg sin cos calls (k + 1) s0 = some s1 := by
      simp [processOdomRun, hrun, hstep]
    refine ⟨s1, hrun1, hlen1, ?_⟩
    intro j hj sj hsj hfull
    rcases Nat.lt_or_ge j (k + 1) with hlt | hge
    · exact hkeep (hstay j (by omega) sj hsj hfull)
    · have hjk : j = k + 1 := by omega
      subst hjk
      rw [hrun1, Option.some.injEq] at hsj
      rw [hsj]
      exact hfull

/-- C12, as stated, fails for a configured window size below 1: with `odom_window = -1` the
comparison `size() == odom_window_` never holds, nothing is ever popped, and after the first
call the queue holds one sample, more than the configured size. -/
theorem processOdomRun_negative_window_exceeded :
    ∃ s, processOdomRun (negativeWindowConfig : Config ℝ) Real.sin Real.cos steadyCalls 1
        zeroEstimator = some s ∧
      s.queue.length = 1 ∧
      ¬ ((s.queue.length : Int) ≤ (negativeWindowConfig : Config ℝ).odom_window) := by
  have hne : ((zeroEstimator : Estimator ℝ).queue.length : Int) ≠
      (negativeWindowConfig : Config ℝ).odom_window := by
    simp [zeroEstimator, negativeWindowConfig]
  have hstep := processOdom_warm_up (negativeWindowConfig : Config ℝ) Real.sin Real.cos
    (steadyCalls 0 : OdomCall ℝ).now (steadyCalls 0 : OdomCall ℝ).dl0 (steadyCalls 0 : OdomCall ℝ).dr0 (steadyCalls 0 : OdomCall ℝ).left
    (steadyCalls 0 : OdomCall ℝ).right zeroEstimator hne
  have hrun : processOdomRun (negativeWindowConfig : Config ℝ) Real.sin Real.cos steadyCalls 1
      zeroEstimator =
      processOdom (negativeWindowConfig : Config ℝ) Real.sin Real.cos (steadyCalls 0 : OdomCall ℝ).now
        (steadyCalls 0 : OdomCall ℝ).dl0 (steadyCalls 0 : OdomCall ℝ).dr0 (steadyCalls 0 : OdomCall ℝ).left (steadyCalls 0 : OdomCall ℝ).right
        zeroEstimator := by
    simp only [processOdomRun, Option.some_bind]
  rw [hrun, hstep]
  refine ⟨_, rfl, ?_, ?_⟩
  · simp [processOdomTail, zeroEstimator]
  · simp [processOdomTail, zeroEstimator, negativeWindowConfig]

/-- C12, amended: for every configured window size `W ≥ 1`, starting from an empty window, after
any number `k` of `processOdom` calls (any ticks, any timestamps) every call has completed and
the queue size is at most `W`; if the size was `W` after some earlier call it is `W` now; and
the next call either leaves the queue alone (stale sample), or appends its sample at the back
of a queue shorter than `W`, or removes the front and appends its sample at the back: samples
leave in the order they entered. -/
theorem processOdomRun_window_bounded (cfg : Config K) (sin cos : K → K)
    (calls : Nat → OdomCall K) (W : Nat) (hW : 1 ≤ W) (hcfg : cfg.odom_window = (W : Int))
    (s0 : Estimator K) (hs0 : s0.queue = []) (k : Nat) :
    ∃ s s1, processOdomRun cfg sin cos calls k s0 = some s ∧
      processOdomRun cfg sin cos calls (k + 1) s0 = some s1 ∧
      s.queue.length ≤ W ∧
      (∀ j, j ≤ k → ∀ sj, processOdomRun cfg sin cos calls j s0 = some sj →
        sj.queue.length = W → s.queue.length = W) ∧
      (s1.queue = s.queue ∨ (∃ x, s.queue.length < W ∧ s1.queue = s.queue ++ [x]) ∨
        ∃ x front rest, s.queue = front :: rest ∧ s1.queue = rest ++ [x]) := by
  obtain ⟨s, hrun, hlen, hstay⟩ := processOdomRun_size cfg sin cos calls W hW hcfg s0 hs0 k
  obtain ⟨s1, hstep, -, -, hfifo⟩ :=
    processOdom_queue_step cfg sin cos (calls k).now (calls k).dl0 (calls k).dr0
      (calls k).left (calls k).right s W hW hcfg hlen
  refine ⟨s, s1, hrun, ?_, hlen, hstay, hfifo⟩
  simp [processOdomRun, hrun, hstep]

/-- Witness of C12, amended: the default window `W = 5` and the calls `steadyCalls` from the
empty window: after 7 calls the queue holds at most 5 samples. -/
theorem processOdomRun_window_bounded_witness :
    (1 ≤ 5 ∧ (defaultConfig : Config ℝ).odom_window = ((5 : Nat) : Int) ∧
      (zeroEstimator : Estimator ℝ).queue = []) ∧
      ∃ s, processOdomRun (defaultConfig : Config ℝ) Real.sin Real.cos steadyCalls 7
          zeroEstimator = some s ∧ s.queue.length ≤ 5 := by
  obtain ⟨s, _, hrun, _, hlen, _, _⟩ :=
    processOdomRun_window_bounded (defaultConfig : Config ℝ) Real.sin Real.cos steadyCalls 5
      (by decide) rfl zeroEstimator rfl 7
  exact ⟨⟨by decide, rfl, rfl⟩, s, hrun, hlen⟩

end Window

/-! ## CommandGovernor: range of the transmitted integers -/

section FrameRange

variable {K : Type} [LinearOrderedField K]

theorem thresholdVelocity_abs_le (cfg : Config K) (s : Command K) :
    |(thresholdVelocity cfg s).cmd_left| ≤ |cfg.maximum_vel| ∧
      |(thresholdVelocity cfg s).cmd_right| ≤ |cfg.maximum_vel| := by
  obtain ⟨l, r, t⟩ := s
  have hle := le_abs_self cfg.maximum_vel
  have hneg := neg_abs_le cfg.maximum_vel
  have hself : |(-cfg.maximum_vel)| ≤ |cfg.maximum_vel| := by rw [abs_neg]
  unfold thresholdVelocity
  constructor
  · by_cases h1 : l > cfg.maximum_vel <;> by_cases h2 : cfg.maximum_vel < -cfg.maximum_vel <;>
      by_cases h3 : l < -cfg.maximum_vel <;> by_cases h4 : r > cfg.maximum_vel <;>
      by_cases h5 : r < -cfg.maximum_vel <;>
      simp only [h1, h2, h3, h4, h5, if_true, if_false, le_refl, hself] <;>
      first
        | exact hself
        | exact le_refl _
        | (rw [abs_le]; constructor <;> linarith)
  · by_cases h1 : l > cfg.maximum_vel <;> by_cases h2 : cfg.maximum_vel < -cfg.maximum_vel <;>
      by_cases h3 : l < -cfg.maximum_vel <;> by_cases h4 : r > cfg.maximum_vel <;>
      by_cases h5 : r < -cfg.maximum_vel <;>
      simp only [h1, h2, h3, h4, h5, if_true, if_false, le_refl, hself] <;>
      first
        | exact hself
        | exact le_refl _
        | (rw [abs_le]; constructor <;> linarith)

theorem controlLoopTimeout_abs_le (cfg : Config K) (now now2 : K) (s : Command K)
    (h : |s.cmd_left| ≤ 1 ∧ |s.cmd_right| ≤ 1) :
    |(controlLoopTimeout cfg now now2 s).cmd_left| ≤ 1 ∧
      |(controlLoopTimeout cfg now now2 s).cmd_right| ≤ 1 := by
  by_cases hto : now - s.cmd_time > cfg.cmd_time_out
  · simp [controlLoopTimeout, hto]
  · simp only [controlLoopTimeout, hto, if_false]
    exact h

theorem controlLoopRun_abs_le (cfg : Config K) (clock : Nat → K × K) (s : Command K)
    (h : |s.cmd_left| ≤ 1 ∧ |s.cmd_right| ≤ 1) (n : Nat) :
    |(controlLoopRun cfg clock n s).cmd_left| ≤ 1 ∧
      |(controlLoopRun cfg clock n s).cmd_right| ≤ 1 := by
  induction n with
  | zero => exact h
  | succ n ih => exact controlLoopTimeout_abs_le cfg _ _ _ ih

theorem doubleToInt_of_abs_le_one [FloorRing K] (x : K) (hx : |x| ≤ 1) :
    ∃ t : Int, doubleToInt (x * 127) = some t ∧ -127 ≤ t ∧ t ≤ 127 := by
  have hprod : |x * 127| ≤ 127 := by
    rw [abs_mul, abs_of_pos (by norm_num : (0 : K) < 127)]
    linarith
  have hlt : |x * 127| < 2 ^ 31 := lt_of_le_of_lt hprod (by norm_num)
  obtain ⟨t, ht, habs, -, -⟩ := doubleToInt_truncates (x * 127) hlt
  have htK : |(t : K)| ≤ 127 := le_trans habs hprod
  rw [abs_le] at htK
  refine ⟨t, ht, ?_, ?_⟩
  · have : ((-127 : Int) : K) ≤ (t : K) := by
      push_cast
      exact htK.1
    exact_mod_cast this
  · have : (t : K) ≤ ((127 : Int) : K) := by
      push_cast
      exact htK.2
    exact_mod_cast this

theorem controlLoopStep_frame_range [FloorRing K] (cfg : Config K) (now now2 : K)
    (s : Command K) (h : |s.cmd_left| ≤ 1 ∧ |s.cmd_right| ≤ 1) :
    ∃ L R : Int,
      (controlLoopStep cfg true now now2 s).2.2 = SendOutcome.wrote
        ("\nMOTOS,".toList ++ fmtInt L ++ ",".toList ++ fmtInt R ++ ",MOTOE\n".toList) ∧
      (-127 ≤ L ∧ L ≤ 127) ∧ (-127 ≤ R ∧ R ≤ 127) := by
  obtain ⟨hl, hr⟩ := controlLoopTimeout_abs_le cfg now now2 s h
  obtain ⟨L, hL, hLr⟩ := doubleToInt_of_abs_le_one _ hl
  obtain ⟨R, hR, hRr⟩ := doubleToInt_of_abs_le_one _ hr
  refine ⟨L, R, ?_, hLr, hRr⟩
  simp [controlLoopStep, sendMotorCmd, motorFrame, hL, hR]

/-- C13, as stated, fails for a configured `maximum_vel` above 1: with `maximum_vel = 2` the
wheel command (2, 2) is stored unclamped and the next control-loop iteration sends the frame
`\nMOTOS,254,254,MOTOE\n`. -/
theorem controlLoopStep_frame_exceeds_127 :
    diffCmdCallback (fastConfig : Config ℚ) 2 2 0 ⟨0, 0, 0⟩ = ⟨2, 2, 0⟩ ∧
      (controlLoopStep (fastConfig : Config ℚ) true 0 0
        (diffCmdCallback (fastConfig : Config ℚ) 2 2 0 ⟨0, 0, 0⟩)).2.2 =
        SendOutcome.wrote "\nMOTOS,254,254,MOTOE\n".toList := by
  have hcb : diffCmdCallback (fastConfig : Config ℚ) 2 2 0 ⟨0, 0, 0⟩ = ⟨2, 2, 0⟩ := by
    norm_num [diffCmdCallback, thresholdVelocity, fastConfig, defaultConfig]
  have hto : controlLoopTimeout (fastConfig : Config ℚ) 0 0 ⟨2, 2, 0⟩ = ⟨2, 2, 0⟩ := by
    norm_num [controlLoopTimeout, fastConfig, defaultConfig]
  have hint : doubleToInt ((2 : ℚ) * 127) = some 254 := by
    have h : ⌊(2 : ℚ) * 127⌋ = 254 := by
      rw [Int.floor_eq_iff]
      norm_num
    have h0 : (0 : ℚ) ≤ 2 * 127 := by norm_num
    simp only [doubleToInt, h0, if_true, h]
    decide
  refine ⟨hcb, ?_⟩
  rw [hcb]
  simp only [controlLoopStep, hto, sendMotorCmd, motorFrame, hint]
  decide

/-- C13, amended: for every configured `maximum_vel` with `|maximum_vel| ≤ 1`, every earlier
setpoint and every commanded input that is a finite number (no NaN, as is
`body_width_`), each frame that a
control-loop iteration writes (port open) from the setpoint stored by `cmdVelCallback` or by
`diffCmdCallback`, whether or not an iteration has zeroed it by timeout, carries two integers
in [-127, 127]. -/
theorem controlLoop_frames_within_127 [FloorRing K] (cfg : Config K)
    (hm : |cfg.maximum_vel| ≤ 1) (s0 : Command K) (vx wz left right t : K)
    (clock : Nat → K × K) (n : Nat) :
    (∃ L R : Int,
      (controlLoopStep cfg true (clock n).1 (clock n).2
        (controlLoopRun cfg clock n (cmdVelCallback cfg vx wz t s0))).2.2 = SendOutcome.wrote
          ("\nMOTOS,".toList ++ fmtInt L ++ ",".toList ++ fmtInt R ++ ",MOTOE\n".toList) ∧
      (-127 ≤ L ∧ L ≤ 127) ∧ (-127 ≤ R ∧ R ≤ 127)) ∧
    (∃ L R : Int,
      (controlLoopStep cfg true (clock n).1 (clock n).2
        (controlLoopRun cfg clock n (diffCmdCallback cfg left right t s0))).2.2 =
          SendOutcome.wrote
            ("\nMOTOS,".toList ++ fmtInt L ++ ",".toList ++ fmtInt R ++ ",MOTOE\n".toList) ∧
      (-127 ≤ L ∧ L ≤ 127) ∧ (-127 ≤ R ∧ R ≤ 127)) := by
  have hvel : |(cmdVelCallback cfg vx wz t s0).cmd_left| ≤ 1 ∧
      |(cmdVelCallback cfg vx wz t s0).cmd_right| ≤ 1 := by
    obtain ⟨h1, h2⟩ := thresholdVelocity_abs_le cfg
      { s0 with cmd_left := (diffToLR cfg.body_width vx wz).1,
                cmd_right := (diffToLR cfg.body_width vx wz).2 }
    exact ⟨le_trans h1 hm, le_trans h2 hm⟩
  have hdiff : |(diffCmdCallback cfg left right t s0).cmd_left| ≤ 1 ∧
      |(diffCmdCallback cfg left right t s0).cmd_right| ≤ 1 := by
    obtain ⟨h1, h2⟩ := thresholdVelocity_abs_le cfg
      { s0 with cmd_left := left, cmd_right := right }
    exact ⟨le_trans h1 hm, le_trans h2 hm⟩
  exact ⟨controlLoopStep_frame_range cfg _ _ _ (controlLoopRun_abs_le cfg clock _ hvel n),
    controlLoopStep_frame_range cfg _ _ _ (controlLoopRun_abs_le cfg clock _ hdiff n)⟩

/-- Witness of C13, amended: the default `maximum_vel = 1`; the wheel command (5, -1/2) is
stored as (1, -1/2) and the first iteration sends 127 and -63. -/
theorem controlLoop_frames_within_127_witness :
    |(defaultConfig : Config ℚ).maximum_vel| ≤ 1 ∧
      ∃ L R : Int,
        (controlLoopStep (defaultConfig : Config ℚ) true 0 0
          (controlLoopRun (defaultConfig : Config ℚ) (fun _ => (0, 0)) 0
            (diffCmdCallback (defaultConfig : Config ℚ) 5 (-1 / 2) 0 ⟨0, 0, 0⟩))).2.2 =
            SendOutcome.wrote
              ("\nMOTOS,".toList ++ fmtInt L ++ ",".toList ++ fmtInt R ++ ",MOTOE\n".toList) ∧
        (-127 ≤ L ∧ L ≤ 127) ∧ (-127 ≤ R ∧ R ≤ 127) :=
  ⟨by norm_num [defaultConfig],
    (controlLoop_frames_within_127 (defaultConfig : Config ℚ) (by norm_num [defaultConfig])
      ⟨0, 0, 0⟩ 0 0 5 (-1 / 2) 0 (fun _ => (0, 0)) 0).2⟩

end FrameRange

/-! ## CommandGovernor: one-shot timeout -/

section OneShot

variable {K : Type} [LinearOrderedField K]

theorem controlLoopTimeout_eq_ite (cfg : Config K) (now now2 : K) (s : Command K) :
    controlLoopTimeout cfg now now2 s =
      if controlLoopTimedOut cfg now s = true then
        { cmd_left := 0, cmd_right := 0, cmd_time := now2 }
      else s := by
  simp only [controlLoopTimeout, controlLoopTimedOut, decide_eq_true_eq]

/-- C15, as stated, fails for a negative `cmd_time_out`: with `cmd_time_out = -1` the
iteration at `now = 0` on the setpoint (1, 1, stamped 0) takes the zeroing branch, and a second
iteration at the same instant takes it again (0 - 0 > -1). -/
theorem controlLoopTimeout_rezeroes_with_negative_timeout :
    controlLoopTimedOut (negativeTimeoutConfig : Config ℚ) 0 ⟨1, 1, 0⟩ = true ∧
      controlLoopTimeout (negativeTimeoutConfig : Config ℚ) 0 0 ⟨1, 1, 0⟩ = ⟨0, 0, 0⟩ ∧
      controlLoopTimedOut (negativeTimeoutConfig : Config ℚ) 0
        (controlLoopTimeout (negativeTimeoutConfig : Config ℚ) 0 0 ⟨1, 1, 0⟩) = true := by
  have h1 : controlLoopTimedOut (negativeTimeoutConfig : Config ℚ) 0 ⟨1, 1, 0⟩ = true := by
    norm_num [controlLoopTimedOut, negativeTimeoutConfig]
  have h2 : controlLoopTimeout (negativeTimeoutConfig : Config ℚ) 0 0 ⟨1, 1, 0⟩ = ⟨0, 0, 0⟩ := by
    rw [controlLoopTimeout_eq_ite, h1]
    rfl
  refine ⟨h1, h2, ?_⟩
  rw [h2]
  norm_num [controlLoopTimedOut, negativeTimeoutConfig]

/-- C15, amended: for every setpoint state, every instant `now` and every `cmd_time_out`, the
timeout check applied twice at `now` gives the same state as applied once; and when
`cmd_time_out ≥ 0`, if the check at `now` takes the zeroing branch, a second check at the same
instant does not take it again and leaves the state `(0, 0, now)` unchanged. -/
theorem controlLoopTimeout_one_shot (cfg : Config K) (now : K) (s : Command K) :
    controlLoopTimeout cfg now now (controlLoopTimeout cfg now now s) =
        controlLoopTimeout cfg now now s ∧
      (0 ≤ cfg.cmd_time_out → controlLoopTimedOut cfg now s = true →
        controlLoopTimeout cfg now now s = { cmd_left := 0, cmd_right := 0, cmd_time := now } ∧
        controlLoopTimedOut cfg now (controlLoopTimeout cfg now now s) = false) := by
  constructor
  · by_cases h : now - s.cmd_time > cfg.cmd_time_out
    · by_cases h2 : now - now > cfg.cmd_time_out
      · simp [controlLoopTimeout, h, h2]
      · simp [controlLoopTimeout, h, h2]
    · simp [controlLoopTimeout, h]
  · intro hto hz
    have hstate : controlLoopTimeout cfg now now s =
        { cmd_left := 0, cmd_right := 0, cmd_time := now } := by
      rw [controlLoopTimeout_eq_ite, hz]
      rfl
    refine ⟨hstate, ?_⟩
    rw [hstate]
    simp only [controlLoopTimedOut, sub_self, gt_iff_lt, decide_eq_false_iff_not, not_lt]
    exact hto

/-- Witness of C15, amended: the default `cmd_time_out = 1/2`, the setpoint (1, 1, stamped 0)
and `now = 1`: the first check zeroes, the second does not. -/
theorem controlLoopTimeout_one_shot_witness :
    ((0 : ℚ) ≤ (defaultConfig : Config ℚ).cmd_time_out ∧
      controlLoopTimedOut (defaultConfig : Config ℚ) 1 ⟨1, 1, 0⟩ = true) ∧
      controlLoopTimeout (defaultConfig : Config ℚ) 1 1 ⟨1, 1, 0⟩ = ⟨0, 0, 1⟩ ∧
      controlLoopTimedOut (defaultConfig : Config ℚ) 1
        (controlLoopTimeout (defaultConfig : Config ℚ) 1 1 ⟨1, 1, 0⟩) = false := by
  have h0 : (0 : ℚ) ≤ (defaultConfig : Config ℚ).cmd_time_out := by
    norm_num [defaultConfig]
  have hz : controlLoopTimedOut (defaultConfig : Config ℚ) 1 ⟨1, 1, 0⟩ = true := by
    norm_num [controlLoopTimedOut, defaultConfig]
  exact ⟨⟨h0, hz⟩,
    (controlLoopTimeout_one_shot (defaultConfig : Config ℚ) 1 ⟨1, 1, 0⟩).2 h0 hz⟩

end OneShot

/-! ## Scheduler: shutdown -/

section Shutdown

variable {K : Type} [LinearOrderedField K]

theorem sendMotorCmd_zero [FloorRing K] :
    sendMotorCmd true (0 : K) 0 = SendOutcome.wrote zeroFrame := by
  have h : doubleToInt ((0 : K) * 127) = some 0 := by
    simp [doubleToInt]
  simp only [sendMotorCmd, motorFrame, h]
  decide

theorem destructor_open (w : WriteResult) :
    destructor true w =
      [ShutdownEffect.interruptOdom, ShutdownEffect.joinOdom, ShutdownEffect.write zeroFrame] ++
        (if w = WriteResult.escaped then [] else [ShutdownEffect.close]) ++
        [ShutdownEffect.deleteSerial, ShutdownEffect.deleteThread] := by
  unfold destructor
  rw [sendMotorCmd_zero]
  cases w <;> simp

/-- C16, as stated, fails when the port is not open at shutdown: `sendMotorCmd(0, 0)` returns
without writing, so the destructor closes the transport with no zero-velocity frame written. -/
theorem destructor_closed_port_writes_nothing :
    destructor false WriteResult.done =
        [ShutdownEffect.interruptOdom, ShutdownEffect.joinOdom, ShutdownEffect.close,
          ShutdownEffect.deleteSerial, ShutdownEffect.deleteThread] ∧
      (destructor false WriteResult.done).count (ShutdownEffect.write zeroFrame) = 0 := by
  have h : destructor false WriteResult.done =
      [ShutdownEffect.interruptOdom, ShutdownEffect.joinOdom, ShutdownEffect.close,
        ShutdownEffect.deleteSerial, ShutdownEffect.deleteThread] := by
    simp [destructor, sendMotorCmd]
  rw [h]
  exact ⟨rfl, by decide⟩

/-- C16, amended: when the port is open at shutdown, the calls of the destructor are, in this
order: interrupt and join of the odometry thread, one write of the zero-velocity frame
`\nMOTOS,0,0,MOTOE\n`, then the close of the transport (skipped only if the write throws past
`sendMotorCmd`), then the two deletes. Exactly one frame is written, it is the zero frame, and
no close comes before it. -/
theorem destructor_order (w : WriteResult) :
    destructor true w =
        [ShutdownEffect.interruptOdom, ShutdownEffect.joinOdom,
          ShutdownEffect.write zeroFrame] ++
          (if w = WriteResult.escaped then [] else [ShutdownEffect.close]) ++
          [ShutdownEffect.deleteSerial, ShutdownEffect.deleteThread] ∧
      (destructor true w).count (ShutdownEffect.write zeroFrame) = 1 ∧
      (∀ frame, ShutdownEffect.write frame ∈ destructor true w → frame = zeroFrame) ∧
      ShutdownEffect.close ∉ (destructor true w).take 3 ∧
      (destructor true w).count ShutdownEffect.close ≤ 1 := by
  refine ⟨destructor_open w, ?_, ?_, ?_, ?_⟩
  · rw [destructor_open]
    cases w <;> decide
  · intro frame hmem
    rw [destructor_open] at hmem
    cases w <;> simp at hmem <;> exact hmem
  · rw [destructor_open]
    cases w <;> decide
  · rw [destructor_open]
    cases w <;> decide

/-- Witness of C16, amended: port open and the write returns: interrupt, join, the zero frame,
close, then the two deletes. -/
theorem destructor_order_witness :
    destructor true WriteResult.done =
        [ShutdownEffect.interruptOdom, ShutdownEffect.joinOdom,
          ShutdownEffect.write "\nMOTOS,0,0,MOTOE\n".toList, ShutdownEffect.close,
          ShutdownEffect.deleteSerial, ShutdownEffect.deleteThread] ∧
      (destructor true WriteResult.done).count (ShutdownEffect.write zeroFrame) = 1 :=
  ⟨(destructor_order WriteResult.done).1, (destructor_order WriteResult.done).2.1⟩

end Shutdown

/-! ## MotionIntegrator: the two branches -/

section Integrator

variable {K : Type} [LinearOrderedField K]

/-- C17, as stated, fails for a NaN `angular` (which `LRtoDiff` produces when `body_width_` is
0): the guard `fabs(angular) < 1e-6` is false for NaN, so `integrateExact` takes the branch that
divides by `angular`, although `|angular| ≥ 1e-6` is false as well; the pose becomes NaN. -/
theorem integrateExact_divides_by_nan :
    ¬ (fabs (NanOr.nan : NanOr ℝ) < angularThreshold) ∧
      ¬ ((angularThreshold : NanOr ℝ) ≤ fabs (NanOr.nan : NanOr ℝ)) ∧
      integrateExact (NanOr.map Real.sin) (NanOr.map Real.cos) (NanOr.num 1) NanOr.nan
          ⟨NanOr.num 0, NanOr.num 0, NanOr.num 0⟩ =
        integrateArc (NanOr.map Real.sin) (NanOr.map Real.cos) (NanOr.num 1) NanOr.nan
          ⟨NanOr.num 0, NanOr.num 0, NanOr.num 0⟩ ∧
      integrateExact (NanOr.map Real.sin) (NanOr.map Real.cos) (NanOr.num 1) NanOr.nan
          ⟨NanOr.num 0, NanOr.num 0, NanOr.num 0⟩ =
        ⟨NanOr.nan, NanOr.nan, NanOr.nan⟩ :=
  ⟨fun h => h, fun h => h, rfl, rfl⟩

/-- C17, amended: write `c` for the `double` constant `1e-6` of the guard
(`c = 4722366482869645 / 2^72`, with `0 < c < 10^-6`). For every pose and every numbers
`linear`, `angular` (no NaN): `integrateExact` takes the branch that divides by `angular` only
when `|angular| ≥ c`, where `angular` is not zero; when `|angular| < c` (in particular for
`angular = 0`) its result is that of `integrateRungeKutta2`:
`x += linear·cos(theta + angular/2)`, `y += linear·sin(theta + angular/2)`,
`theta += angular`. -/
theorem integrateExact_division_guarded (sin cos : K → K) (linear angular : K) (p : Pose K) :
    ((angularThreshold : K) = 4722366482869645 / 2 ^ 72 ∧ (0 : K) < angularThreshold ∧
        (angularThreshold : K) < 1 / 1000000) ∧
      (|angular| < angularThreshold →
        integrateExact sin cos linear angular p =
            integrateRungeKutta2 sin cos linear angular p ∧
          integrateExact sin cos linear angular p =
            { px := p.px + linear * cos (p.theta + angular / 2)
              py := p.py + linear * sin (p.theta + angular / 2)
              theta := p.theta + angular }) ∧
      (¬ |angular| < angularThreshold →
        integrateExact sin cos linear angular p = integrateArc sin cos linear angular p ∧
          angularThreshold ≤ |angular| ∧ angular ≠ 0) ∧
      integrateExact sin cos linear 0 p =
        { px := p.px + linear * cos p.theta
          py := p.py + linear * sin p.theta
          theta := p.theta } := by
  have hhalf : angular * (1 / 2) = angular / 2 := by ring
  refine ⟨⟨angularThreshold_eq, angularThreshold_pos, angularThreshold_lt⟩, ?_, ?_, ?_⟩
  · intro h
    rw [integrateExact_eq_ite, if_pos h]
    refine ⟨rfl, ?_⟩
    simp only [integrateRungeKutta2, hhalf]
  · intro h
    rw [integrateExact_eq_ite, if_neg h]
    refine ⟨rfl, not_lt.mp h, ?_⟩
    rintro rfl
    exact h abs_zero_lt_angularThreshold
  · exact integrateExact_zero_angular sin cos linear p

/-- Witness of C17, amended: `angular = 0`, `linear = 2` from the pose (1, 1, 0): the
small-angle branch gives (1 + 2·cos 0, 1 + 2·sin 0, 0) = (3, 1, 0); and `angular = 1` is at
least `c`, so the arc branch runs with a nonzero divisor. -/
theorem integrateExact_division_guarded_witness :
    (|(0 : ℝ)| < angularThreshold ∧ ¬ |(1 : ℝ)| < angularThreshold) ∧
      integrateExact Real.sin Real.cos 2 0 ⟨1, 1, 0⟩ =
        integrateRungeKutta2 Real.sin Real.cos 2 0 ⟨1, 1, 0⟩ ∧
      integrateExact Real.sin Real.cos 2 0 ⟨1, 1, 0⟩ = ⟨3, 1, 0⟩ ∧
      integrateExact Real.sin Real.cos 2 1 ⟨1, 1, 0⟩ =
        integrateArc Real.sin Real.cos 2 1 ⟨1, 1, 0⟩ := by
  have h0 : |(0 : ℝ)| < angularThreshold := abs_zero_lt_angularThreshold
  have h1 : ¬ |(1 : ℝ)| < angularThreshold := by
    rw [abs_one, not_lt]
    exact le_of_lt (lt_trans angularThreshold_lt (by norm_num))
  have hz := integrateExact_division_guarded Real.sin Real.cos 2 0 (⟨1, 1, 0⟩ : Pose ℝ)
  have ho := integrateExact_division_guarded Real.sin Real.cos 2 1 (⟨1, 1, 0⟩ : Pose ℝ)
  refine ⟨⟨h0, h1⟩, (hz.2.1 h0).1, ?_, (ho.2.2.1 h1).1⟩
  rw [hz.2.2.2]
  norm_num

/-- C20: `integrateExact(d, a)` followed by `integrateExact(-d, -a)` gives back the original
pose, in the small-angle branch and in the arc branch alike, for any functions in the place of
`sin` and `cos`. -/
theorem integrateExact_reversible (sin cos : K → K) (linear angular : K) (p : Pose K) :
    integrateExact sin cos (-linear) (-angular) (integrateExact sin cos linear angular p) =
      p := by
  obtain ⟨x, y, th⟩ := p
  have hback : th + angular + -angular = th := by ring
  have hmid : th + angular + -angular * (1 / 2) = th + angular * (1 / 2) := by ring
  have hr : -linear / -angular = linear / angular := neg_div_neg_eq linear angular
  by_cases h : |angular| < angularThreshold
  · simp only [integrateExact_eq_ite, abs_neg, h, if_true, integrateRungeKutta2, hback, hmid,
      Pose.mk.injEq, and_true]
    constructor <;> ring
  · simp only [integrateExact_eq_ite, abs_neg, h, if_false, integrateArc, hback, hr,
      Pose.mk.injEq, and_true]
    constructor <;> ring

end Integrator

/-! ## OdometryEstimator: what drives the pose and the twist -/

section PoseStep

variable {K : Type} [LinearOrderedField K]

/-- C19, the code at the failing input: a warm-up call (empty window, `W = 5`) in which the
unassigned locals `dl`, `dr` happen to hold 1 moves the pose from (0, 0, 0) to (1, 0, 0). -/
theorem processOdom_warm_up_moves_pose :
    (zeroEstimator : Estimator ℝ).pose = ⟨0, 0, 0⟩ ∧
      ((zeroEstimator : Estimator ℝ).queue.length : Int) ≠
        (defaultConfig : Config ℝ).odom_window ∧
      ∃ s1, processOdom (defaultConfig : Config ℝ) Real.sin Real.cos 0 1 1 0 0
          zeroEstimator = some s1 ∧ s1.pose = ⟨1, 0, 0⟩ := by
  have hne : ((zeroEstimator : Estimator ℝ).queue.length : Int) ≠
      (defaultConfig : Config ℝ).odom_window := by
    simp [zeroEstimator, defaultConfig]
  refine ⟨rfl, hne, ?_⟩
  rw [processOdom_warm_up _ _ _ _ _ _ _ _ _ hne]
  refine ⟨_, rfl, ?_⟩
  have hd : LRtoDiff (defaultConfig : Config ℝ).body_width 1 1 = (1, 0) := by
    norm_num [LRtoDiff, defaultConfig]
  simp only [processOdomTail, hd, integrateExact_zero_angular]
  norm_num [zeroEstimator]

end PoseStep

/-! ## MotionIntegrator: continuity at the branch boundary -/

section Continuity

open Filter Topology

theorem arc_px_tendsto (p : Pose ℝ) (d : ℝ) :
    Tendsto (fun a => (integrateArc Real.sin Real.cos d a p).px) (𝓝[≠] 0)
      (𝓝 (p.px + d * Real.cos p.theta)) := by
  have hslope := (Real.hasDerivAt_sin p.theta).tendsto_slope_zero
  have h := (hslope.const_mul d).const_add p.px
  refine h.congr ?_
  intro a
  simp only [integrateArc, smul_eq_mul]
  ring

theorem arc_py_tendsto (p : Pose ℝ) (d : ℝ) :
    Tendsto (fun a => (integrateArc Real.sin Real.cos d a p).py) (𝓝[≠] 0)
      (𝓝 (p.py + d * Real.sin p.theta)) := by
  have hslope := (Real.hasDerivAt_cos p.theta).tendsto_slope_zero
  have h := (hslope.const_mul (-d)).const_add p.py
  have hlim : p.py + -d * -Real.sin p.theta = p.py + d * Real.sin p.theta := by ring
  rw [hlim] at h
  refine h.congr ?_
  intro a
  simp only [integrateArc, smul_eq_mul]
  ring

theorem step_theta_tendsto (p : Pose ℝ) :
    Tendsto (fun a : ℝ => p.theta + a) (𝓝[≠] 0) (𝓝 p.theta) := by
  have hc : Continuous fun a : ℝ => p.theta + a := by continuity
  have h := hc.tendsto 0
  rw [add_zero] at h
  exact tendsto_nhdsWithin_of_tendsto_nhds h

theorem rk2_px_tendsto (p : Pose ℝ) (d : ℝ) :
    Tendsto (fun a => (integrateRungeKutta2 Real.sin Real.cos d a p).px) (𝓝[≠] 0)
      (𝓝 (p.px + d * Real.cos p.theta)) := by
  have hc : Continuous fun a : ℝ => p.px + d * Real.cos (p.theta + a * (1 / 2)) := by
    continuity
  have h := hc.tendsto 0
  simp only [zero_mul, add_zero] at h
  exact tendsto_nhdsWithin_of_tendsto_nhds h

theorem rk2_py_tendsto (p : Pose ℝ) (d : ℝ) :
    Tendsto (fun a => (integrateRungeKutta2 Real.sin Real.cos d a p).py) (𝓝[≠] 0)
      (𝓝 (p.py + d * Real.sin p.theta)) := by
  have hc : Continuous fun a : ℝ => p.py + d * Real.sin (p.theta + a * (1 / 2)) := by
    continuity
  have h := hc.tendsto 0
  simp only [zero_mul, add_zero] at h
  exact tendsto_nhdsWithin_of_tendsto_nhds h

/-- C14: over the reals, for every pose `(x, y, theta)` and every linear displacement `d`, as
the angular displacement `a` tends to 0 through nonzero values, the pose of the closed-form arc
branch and the pose of `integrateRungeKutta2` at the same `(d, a)` both tend to
`(x + d·cos theta, y + d·sin theta, theta)`, and their difference tends to 0 in each
coordinate; these two are the branches between which `integrateExact` chooses. -/
theorem integrateArc_tendsto_integrateRungeKutta2 (p : Pose ℝ) (d : ℝ) :
    (Tendsto (fun a => (integrateArc Real.sin Real.cos d a p).px) (𝓝[≠] 0)
        (𝓝 (p.px + d * Real.cos p.theta)) ∧
      Tendsto (fun a => (integrateArc Real.sin Real.cos d a p).py) (𝓝[≠] 0)
        (𝓝 (p.py + d * Real.sin p.theta)) ∧
      Tendsto (fun a => (integrateArc Real.sin Real.cos d a p).theta) (𝓝[≠] 0)
        (𝓝 p.theta)) ∧
    (Tendsto (fun a => (integrateRungeKutta2 Real.sin Real.cos d a p).px) (𝓝[≠] 0)
        (𝓝 (p.px + d * Real.cos p.theta)) ∧
      Tendsto (fun a => (integrateRungeKutta2 Real.sin Real.cos d a p).py) (𝓝[≠] 0)
        (𝓝 (p.py + d * Real.sin p.theta)) ∧
      Tendsto (fun a => (integrateRungeKutta2 Real.sin Real.cos d a p).theta) (𝓝[≠] 0)
        (𝓝 p.theta)) ∧
    (Tendsto (fun a => (integrateArc Real.sin Real.cos d a p).px -
        (integrateRungeKutta2 Real.sin Real.cos d a p).px) (𝓝[≠] 0) (𝓝 0) ∧
      Tendsto (fun a => (integrateArc Real.sin Real.cos d a p).py -
        (integrateRungeKutta2 Real.sin Real.cos d a p).py) (𝓝[≠] 0) (𝓝 0) ∧
      Tendsto (fun a => (integrateArc Real.sin Real.cos d a p).theta -
        (integrateRungeKutta2 Real.sin Real.cos d a p).theta) (𝓝[≠] 0) (𝓝 0)) ∧
    ∀ a : ℝ, integrateExact Real.sin Real.cos d a p =
      if |a| < angularThreshold then integrateRungeKutta2 Real.sin Real.cos d a p
      else integrateArc Real.sin Real.cos d a p := by
  have hax := arc_px_tendsto p d
  have hay := arc_py_tendsto p d
  have hat : Tendsto (fun a => (integrateArc Real.sin Real.cos d a p).theta) (𝓝[≠] 0)
      (𝓝 p.theta) := step_theta_tendsto p
  have hrx := rk2_px_tendsto p d
  have hry := rk2_py_tendsto p d
  have hrt : Tendsto (fun a => (integrateRungeKutta2 Real.sin Real.cos d a p).theta) (𝓝[≠] 0)
      (𝓝 p.theta) := step_theta_tendsto p
  refine ⟨⟨hax, hay, hat⟩, ⟨hrx, hry, hrt⟩, ⟨?_, ?_, ?_⟩, ?_⟩
  · simpa using hax.sub hrx
  · simpa using hay.sub hry
  · simpa using hat.sub hrt
  · intro a
    exact integrateExact_eq_ite Real.sin Real.cos d a p

end Continuity

end ArtiHardware
